import Mathlib

/-!
# Economy ledger of the Discord hosting bot

A shallow embedding of `modules/economyCommands.js` (class `EconomyCommands`).

* The table `player_economy (uuid, balance)` is a list of rows.  The statements the
  handlers send to MySQL are modelled one by one (`selectBalance`, `updateBalanceSub`,
  `insertOnDuplicateAdd`).
* The handlers talk to the table through one connection `this.db`; the connection is
  the state `Db`: the committed table plus the uncommitted view of an open transaction.
* Every awaited call on `this.db` inside a `try` block may throw.  A handler takes a
  fault schedule `fault : Nat → Bool`; `fault k = true` means that the `k`-th awaited
  database call of that run throws (and has no effect).  The awaited calls on
  `interaction` are taken to resolve, except in `handlePayCommandFull`, which counts
  them, and the `rollback()` of the `catch` block, among the calls that may throw.
* Balances and amounts are JavaScript numbers, that is doubles: the amount is read with
  `getNumber`, and the handlers call `toFixed` on the balances they read, so the column
  `balance` reaches them as numbers.  A finite double is written as a whole number of
  quanta, the quantum being a power of two small enough for the values at hand:
  `2^-1074` holds every finite double, and for whole amounts the quantum can be 1.
  Comparisons are exact; a sum or difference is rounded to the nearest number with a
  significand of 53 bits, ties to even (`roundDouble`), and the rounding does not depend
  on the quantum (`roundDouble_two_mul`).  NaN, infinities and the sign of zero are
  outside the model.
* What the handler answers through `interaction.editReply` / `interaction.reply` is
  the `Reply` it returns.
-/

namespace EconomyCommands

/-- One row of the table `player_economy`. -/
structure Row where
  uuid : String
  balance : Int
  deriving DecidableEq, Repr

/-- The table `player_economy`; `uuid` is its unique key (the `INSERT` statements rely on
`ON DUPLICATE KEY`). -/
abbrev Store := List Row

/-- The connection `this.db`: the committed table, and the view of the transaction that
is open on the connection (`none` when no transaction is open). -/
structure Db where
  committed : Store
  tx : Option Store
  deriving DecidableEq, Repr

/-- A connection with no open transaction over the table `s`. -/
def Db.idle (s : Store) : Db := { committed := s, tx := none }

/-- The table as statements on this connection see it. -/
def Db.current (db : Db) : Store := db.tx.getD db.committed

/-- Effect of `this.db.beginTransaction()`: a transaction still open on the connection is
committed implicitly, then a new one starts. -/
def Db.beginTransaction (db : Db) : Db :=
  { committed := db.current, tx := some db.current }

/-- Effect of `this.db.commit()`. -/
def Db.commit (db : Db) : Db := { committed := db.current, tx := none }

/-- Effect of `this.db.rollback()`. -/
def Db.rollback (db : Db) : Db := { committed := db.committed, tx := none }

/-- Effect of a writing statement run through `this.db.execute`: inside a transaction it
changes the transaction's view, otherwise it is committed at once (autocommit). -/
def Db.write (db : Db) (f : Store → Store) : Db :=
  match db.tx with
  | some w => { committed := db.committed, tx := some (f w) }
  | none => { committed := f db.committed, tx := none }

/-- Rows of `SELECT balance FROM player_economy WHERE uuid = ?`. -/
def selectBalance (s : Store) (uuid : String) : List Row :=
  s.filter (fun r => r.uuid = uuid)

/-- The expression `rows[0]?.balance || 0`. -/
def firstBalanceOrZero (rows : List Row) : Int :=
  match rows.head? with
  | some r => if r.balance = 0 then 0 else r.balance
  | none => 0

/-- Helper of `floorLog2`, with `fuel` bounding the number of halvings. -/
def log2Aux : Nat → Nat → Nat
  | 0, _ => 0
  | fuel + 1, n => if 2 ≤ n then log2Aux fuel (n / 2) + 1 else 0

/-- The position of the leading bit of `n`: the `k` with `2^k ≤ n < 2^(k+1)`. -/
def floorLog2 (n : Nat) : Nat := log2Aux n n

/-- The number with a significand of 53 bits nearest to `a`, ties to the even
significand: the rounding of double arithmetic, on a magnitude counted in quanta. -/
def roundNat (a : Nat) : Nat :=
  if a < 9007199254740992 then a
  else
    let e := floorLog2 a - 52
    let q := a / 2 ^ e
    let r := a % 2 ^ e
    if 2 * r > 2 ^ e ∨ (2 * r = 2 ^ e ∧ q % 2 = 1) then (q + 1) * 2 ^ e else q * 2 ^ e

/-- The double nearest to the exact result `n` of a sum or difference of doubles. -/
def roundDouble (n : Int) : Int :=
  if 0 ≤ n then (roundNat n.natAbs : Int) else -(roundNat n.natAbs : Int)

/-- Effect of `UPDATE player_economy SET balance = balance - ? WHERE uuid = ?`. -/
def updateBalanceSub (amount : Int) (uuid : String) (s : Store) : Store :=
  s.map (fun r =>
    if r.uuid = uuid then { r with balance := roundDouble (r.balance - amount) } else r)

/-- Effect of `INSERT INTO player_economy (uuid, balance) VALUES (?, ?)
ON DUPLICATE KEY UPDATE balance = balance + ?`. -/
def insertOnDuplicateAdd (uuid : String) (amount : Int) (s : Store) : Store :=
  if s.any (fun r => r.uuid = uuid) then
    s.map (fun r =>
      if r.uuid = uuid then { r with balance := roundDouble (r.balance + amount) } else r)
  else
    s ++ [{ uuid := uuid, balance := amount }]

/-- The balance of `uuid` as every handler reads it: the first selected row, or 0. -/
def balanceOf (s : Store) (uuid : String) : Int :=
  firstBalanceOrZero (selectBalance s uuid)

/-- The account `uuid` has a row in the table. -/
def hasAccount (s : Store) (uuid : String) : Bool :=
  s.any (fun r => r.uuid = uuid)

/-- The account ids of the table, in row order. -/
def accountIds (s : Store) : List String := s.map (fun r => r.uuid)

/-- What a handler answers to the interaction. -/
inductive Reply where
  /-- 'You cannot pay yourself.' -/
  | cannotPaySelf
  /-- 'Amount must be positive.' -/
  | amountMustBePositive
  /-- 'Insufficient funds.' -/
  | insufficientFunds
  /-- The embed 'Payment Successful'. -/
  | paymentSuccessful
  /-- 'An error occurred while processing the payment.' -/
  | paymentError
  /-- 'You do not have permission to use this command.' -/
  | noPermission
  /-- 'Added $... to ...'s balance.' -/
  | added
  /-- '... does not have enough funds.' -/
  | notEnoughFunds
  /-- 'Removed $... from ...'s balance.' -/
  | removed
  /-- 'An error occurred while processing the command.' -/
  | adminError
  /-- The handler returned without editing the deferred reply. -/
  | noReply
  /-- The handler threw before answering: its promise rejects and nothing is answered. -/
  | threw
  deriving DecidableEq, Repr

/-- An awaited database call: throws when `faulty`, handing the connection state at the
throw to the `catch` block. -/
def attempt (faulty : Bool) (db : Db) : Except Db Unit :=
  if faulty then .error db else .ok ()

/-- The calls on `this.db` of the `try` block of `handlePayCommand` (lines 154-185); an
`error` is a throw caught by the `catch` block, with the connection state at that
moment.  The awaited `editReply` calls of lines 167 and 193 are taken to resolve here;
`handlePayCommandFull` lets them throw. -/
def payTransaction (fault : Nat → Bool) (db : Db) (user target : String) (amount : Int) :
    Except Db (Db × Reply) := do
  attempt (fault 0) db
  let db1 := db.beginTransaction
  attempt (fault 1) db1
  let senderRows := selectBalance db1.current user
  let senderBalance := firstBalanceOrZero senderRows
  if senderBalance < amount then
    attempt (fault 2) db1
    return (db1.rollback, Reply.insufficientFunds)
  attempt (fault 2) db1
  let db2 := db1.write (updateBalanceSub amount user)
  attempt (fault 3) db2
  let db3 := db2.write (insertOnDuplicateAdd target amount)
  attempt (fault 4) db3
  return (db3.commit, Reply.paymentSuccessful)

/-- The handler of `/pay`: `user` is `interaction.user.id`, `target` is the id of the
option `user`, `amount` the option `amount`.  Here the calls on `this.db` of the `try`
block may throw, while the calls on `interaction` and the `rollback()` of the `catch`
block (line 202) are taken to resolve; `handlePayCommandFull` is the handler without
that assumption. -/
def handlePayCommand (fault : Nat → Bool) (db : Db) (user target : String) (amount : Int) :
    Db × Reply :=
  if target = user then (db, Reply.cannotPaySelf)
  else if amount ≤ 0 then (db, Reply.amountMustBePositive)
  else
    match payTransaction fault db user target amount with
    | .ok r => r
    | .error db' => (db'.rollback, Reply.paymentError)

/-- The `catch` block of `handlePayCommand` (lines 201-205), entered with the connection
in the state `db` after `k` awaited calls of the run: the awaited `rollback()` of line
202 is call `k`, the awaited `editReply` of line 204 is call `k + 1`.  The block has no
handler of its own: when one of the two throws, the promise of `handlePayCommand`
rejects, and after a throw of `rollback()` the connection stays as the `try` block left
it. -/
def payCatch (fault : Nat → Bool) (k : Nat) (db : Db) : Db × Reply :=
  if fault k then (db, Reply.threw)
  else if fault (k + 1) then (db.rollback, Reply.threw)
  else (db.rollback, Reply.paymentError)

/-- The handler of `/pay` with every awaited call a possible throw, those on
`interaction` and the `rollback()` of the `catch` block included: `fault k` says whether
the `k`-th awaited call of the run throws.  Call 0 is `deferReply()` (line 139); the
calls of the `try` block follow in the order of lines 155-193, and a throw inside it
enters the `catch` block.  The awaited `target.send` of line 197 has a handler of its
own that ignores the throw, so it changes neither the connection nor the answer and is
not counted. -/
def handlePayCommandFull (fault : Nat → Bool) (db : Db) (user target : String)
    (amount : Int) : Db × Reply :=
  if fault 0 then (db, Reply.threw)
  else if target = user then
    if fault 1 then (db, Reply.threw) else (db, Reply.cannotPaySelf)
  else if amount ≤ 0 then
    if fault 1 then (db, Reply.threw) else (db, Reply.amountMustBePositive)
  else if fault 1 then payCatch fault 2 db
  else
    let db1 := db.beginTransaction
    if fault 2 then payCatch fault 3 db1
    else if firstBalanceOrZero (selectBalance db1.current user) < amount then
      if fault 3 then payCatch fault 4 db1
      else if fault 4 then payCatch fault 5 db1.rollback
      else (db1.rollback, Reply.insufficientFunds)
    else if fault 3 then payCatch fault 4 db1
    else
      let db2 := db1.write (updateBalanceSub amount user)
      if fault 4 then payCatch fault 5 db2
      else
        let db3 := db2.write (insertOnDuplicateAdd target amount)
        if fault 5 then payCatch fault 6 db3
        else if fault 6 then payCatch fault 7 db3.commit
        else (db3.commit, Reply.paymentSuccessful)

/-- The `try` block of `handleEcoAdminCommand` (lines 250-279). -/
def ecoAdminBody (fault : Nat → Bool) (db : Db) (subcommand target : String) (amount : Int) :
    Except Db (Db × Reply) := do
  if subcommand = "give" then
    attempt (fault 0) db
    let db1 := db.write (insertOnDuplicateAdd target amount)
    return (db1, Reply.added)
  else if subcommand = "take" then
    attempt (fault 0) db
    let rows := selectBalance db.current target
    let currentBalance := firstBalanceOrZero rows
    if currentBalance < amount then
      return (db, Reply.notEnoughFunds)
    attempt (fault 1) db
    let db1 := db.write (updateBalanceSub amount target)
    return (db1, Reply.removed)
  else
    return (db, Reply.noReply)

/-- The call `interaction.member.permissions.has('ADMINISTRATOR')` of lines 113 and 239,
for a member who holds the Administrator permission (`isAdmin`) or not.  The module
runs on discord.js 14 (its line 2 imports `EmbedBuilder` and `PermissionFlagsBits`, and
line 55 names the flag `Administrator`).  There `has` answers `true` for an
administrator before it looks at its argument, and otherwise resolves the argument;
'ADMINISTRATOR' is no flag name of version 14, so resolving it throws `BitFieldInvalid`
(`none`). -/
def permissionsHasADMINISTRATOR (isAdmin : Bool) : Option Bool :=
  if isAdmin then some true else none

/-- The handler of `/ecoadmin`: `isAdmin` says whether `interaction.member` holds the
Administrator permission. -/
def handleEcoAdminCommand (fault : Nat → Bool) (isAdmin : Bool) (db : Db)
    (subcommand target : String) (amount : Int) : Db × Reply :=
  match permissionsHasADMINISTRATOR isAdmin with
  | none => (db, Reply.threw)
  | some false => (db, Reply.noPermission)
  | some true =>
    match ecoAdminBody fault db subcommand target amount with
    | .ok r => r
    | .error db' => (db', Reply.adminError)

/-- The table after the two writes of a payment. -/
def paidStore (s : Store) (user target : String) (amount : Int) : Store :=
  insertOnDuplicateAdd target amount (updateBalanceSub amount user s)

/-- The schedule in which no database call throws. -/
def noFault : Nat → Bool := fun _ => false

/-- One call of a ledger command, with the fault schedule of that run.  The `/ecoadmin`
calls are made by a member holding the administrator permission. -/
inductive LedgerCall where
  /-- `/pay` issued by `user` for `target`. -/
  | pay (fault : Nat → Bool) (user target : String) (amount : Int)
  /-- `/ecoadmin give`. -/
  | give (fault : Nat → Bool) (target : String) (amount : Int)
  /-- `/ecoadmin take`. -/
  | take (fault : Nat → Bool) (target : String) (amount : Int)

/-- The connection after one call. -/
def LedgerCall.run (c : LedgerCall) (db : Db) : Db :=
  match c with
  | .pay fault user target amount => (handlePayCommand fault db user target amount).1
  | .give fault target amount => (handleEcoAdminCommand fault true db "give" target amount).1
  | .take fault target amount => (handleEcoAdminCommand fault true db "take" target amount).1

/-- The connection after a sequence of calls, run one after the other. -/
def runCalls (calls : List LedgerCall) (db : Db) : Db :=
  calls.foldl (fun d c => c.run d) db

/-- No account of the table reads a negative balance. -/
def NonNegative (s : Store) : Prop := ∀ u : String, 0 ≤ balanceOf s u

/-- The call is not an `/ecoadmin give` of a negative amount. -/
def LedgerCall.givesNoNegative (c : LedgerCall) : Prop :=
  match c with
  | .give _ _ amount => 0 ≤ amount
  | _ => True

/-! ### Read-only handlers -/

/-- No two rows of the table carry the same `uuid` (the unique key of the table). -/
def UniqueKeys (s : Store) : Prop := (accountIds s).Nodup

instance (s : Store) : Decidable (UniqueKeys s) :=
  inferInstanceAs (Decidable (accountIds s).Nodup)

/-- What `handleBalanceCommand` answers. -/
inductive BalanceReply where
  /-- 'You do not have permission to check other users' balances.' -/
  | noPermission
  /-- The embed '...'s Balance' showing `amount`. -/
  | balance (amount : Int)
  /-- 'An error occurred while checking the balance.' -/
  | error
  /-- The handler threw before answering: its promise rejects and nothing is answered. -/
  | threw
  deriving DecidableEq, Repr

/-- The `try` block of `handleBalanceCommand` (lines 118-131). -/
def balanceLookup (fault : Nat → Bool) (db : Db) (target : String) :
    Except Db (Db × BalanceReply) := do
  attempt (fault 0) db
  let rows := selectBalance db.current target
  let balance := firstBalanceOrZero rows
  return (db, BalanceReply.balance balance)

/-- The test `target !== interaction.user && !interaction.member.permissions.has(
'ADMINISTRATOR')` of line 113: `some true` when the lookup is refused, `none` when the
test throws.  For the caller's own account `&&` does not evaluate its right side. -/
def balanceRefused (targetIsUser isAdmin : Bool) : Option Bool :=
  if targetIsUser then some false
  else (permissionsHasADMINISTRATOR isAdmin).map fun has => !has

/-- The handler of `/balance`: `target` is the id of the user looked up, `targetIsUser`
says whether that user is `interaction.user`, `isAdmin` whether `interaction.member`
holds the Administrator permission. -/
def handleBalanceCommand (fault : Nat → Bool) (targetIsUser isAdmin : Bool) (db : Db)
    (target : String) : Db × BalanceReply :=
  match balanceRefused targetIsUser isAdmin with
  | none => (db, BalanceReply.threw)
  | some true => (db, BalanceReply.noPermission)
  | some false =>
    match balanceLookup fault db target with
    | .ok r => r
    | .error db' => (db', BalanceReply.error)

/-- The order of `ORDER BY balance DESC`: `a` may stand before `b`. -/
def balanceDesc (a b : Row) : Prop := b.balance ≤ a.balance

instance : DecidableRel balanceDesc := fun a b => inferInstanceAs (Decidable (b.balance ≤ a.balance))

/-- What `SELECT uuid, balance FROM player_economy ORDER BY balance DESC` promises of the
rows an engine `order` returns for a table: they are the rows of the table, each as
often as the table holds it, and no row stands before a row of greater balance.  The
statement names no second sort key, so the order among rows of equal balance is up to
the engine; the source contains nothing that fixes it. -/
def OrdersByBalanceDesc (order : Store → List Row) : Prop :=
  ∀ s : Store, (order s).Perm s ∧ (order s).Pairwise balanceDesc

/-- Rows of `SELECT uuid, balance FROM player_economy ORDER BY balance DESC LIMIT n` on
the engine `order`. -/
def selectTopBy (order : Store → List Row) (n : Nat) (s : Store) : List Row :=
  (order s).take n

/-- One engine for `ORDER BY balance DESC`: a stable sort of the rows in the row order of
the list.  It serves to compute a listing on a concrete table; what is proved of
listings in general is proved for every engine that meets `OrdersByBalanceDesc`. -/
def orderByBalanceDesc (s : Store) : List Row := s.insertionSort balanceDesc

/-- The rows of `selectTopBy` on the engine `orderByBalanceDesc`. -/
def selectTop (n : Nat) (s : Store) : List Row := selectTopBy orderByBalanceDesc n s

/-- One field of the embed 'Top 10 Richest Players': the rank `#i+1`, the account whose
user name is shown, and the balance. -/
structure TopField where
  rank : Nat
  uuid : String
  balance : Int
  deriving DecidableEq, Repr

/-- The loop `for (let i = 0; i < rows.length; i++)` of `handleBalanceTopCommand`, from
index `i` on. -/
def topFieldsFrom (i : Nat) : List Row → List TopField
  | [] => []
  | r :: rows => { rank := i + 1, uuid := r.uuid, balance := r.balance } :: topFieldsFrom (i + 1) rows

/-- What `handleBalanceTopCommand` answers. -/
inductive TopReply where
  /-- The embed 'Top 10 Richest Players' with its fields. -/
  | embed (fields : List TopField)
  /-- 'An error occurred while fetching top balances.' -/
  | error
  deriving DecidableEq, Repr

/-- The `try` block of `handleBalanceTopCommand` (lines 211-231), the database running
the engine `order`. -/
def balanceTopLookupBy (order : Store → List Row) (fault : Nat → Bool) (db : Db) :
    Except Db (Db × TopReply) := do
  attempt (fault 0) db
  let rows := selectTopBy order 10 db.current
  return (db, TopReply.embed (topFieldsFrom 0 rows))

/-- The handler of `/baltop`, the database running the engine `order`. -/
def handleBalanceTopCommandBy (order : Store → List Row) (fault : Nat → Bool) (db : Db) :
    Db × TopReply :=
  match balanceTopLookupBy order fault db with
  | .ok r => r
  | .error db' => (db', TopReply.error)

/-- The handler of `/baltop` on the engine `orderByBalanceDesc`. -/
def handleBalanceTopCommand (fault : Nat → Bool) (db : Db) : Db × TopReply :=
  handleBalanceTopCommandBy orderByBalanceDesc fault db

/-! ### The five ledger operations -/

/-- One ledger operation; the `/ecoadmin` operations are issued by an administrator. -/
inductive LedgerOp where
  /-- `/pay` issued by `user` for `target`. -/
  | transfer (user target : String) (amount : Int)
  /-- `/ecoadmin give`. -/
  | adminCredit (target : String) (amount : Int)
  /-- `/ecoadmin take`. -/
  | adminDebit (target : String) (amount : Int)
  /-- `/balance` for the account `id`. -/
  | balanceOf (targetIsUser isAdmin : Bool) (id : String)
  /-- `/baltop`. -/
  | topN

/-- The connection after the operation. -/
def LedgerOp.after (fault : Nat → Bool) (op : LedgerOp) (db : Db) : Db :=
  match op with
  | .transfer user target amount => (handlePayCommand fault db user target amount).1
  | .adminCredit target amount => (handleEcoAdminCommand fault true db "give" target amount).1
  | .adminDebit target amount => (handleEcoAdminCommand fault true db "take" target amount).1
  | .balanceOf targetIsUser isAdmin id => (handleBalanceCommand fault targetIsUser isAdmin db id).1
  | .topN => (handleBalanceTopCommand fault db).1

/-- The account credited by the operation: the target of a payment answered 'Payment
Successful' or of a `give` answered 'Added ...'; `none` for every other run. -/
def LedgerOp.credited (fault : Nat → Bool) (op : LedgerOp) (db : Db) : Option String :=
  match op with
  | .transfer user target amount =>
    if (handlePayCommand fault db user target amount).2 = Reply.paymentSuccessful then some target
    else none
  | .adminCredit target amount =>
    if (handleEcoAdminCommand fault true db "give" target amount).2 = Reply.added then some target
    else none
  | _ => none

/-! ### The database calls a handler issues -/

/-- A call on `this.db`. -/
inductive DbCall where
  | beginTransaction
  | commit
  | rollback
  /-- `SELECT balance FROM player_economy WHERE uuid = ?` -/
  | selectBalance (uuid : String)
  /-- `UPDATE player_economy SET balance = balance - ? WHERE uuid = ?` -/
  | updateBalanceSub (amount : Int) (uuid : String)
  /-- `INSERT INTO player_economy ... ON DUPLICATE KEY UPDATE balance = balance + ?` -/
  | insertOnDuplicateAdd (uuid : String) (amount : Int)
  deriving DecidableEq, Repr

/-- The connection together with the calls issued on it so far, oldest first. -/
structure Conn where
  db : Db
  calls : List DbCall
  deriving DecidableEq, Repr

/-- An awaited call `c` on the connection: it is recorded, and it either throws (no
effect) or has its `effect`. -/
def Conn.call (conn : Conn) (faulty : Bool) (c : DbCall) (effect : Db → Db) :
    Except Conn Conn :=
  if faulty then .error { db := conn.db, calls := conn.calls ++ [c] }
  else .ok { db := effect conn.db, calls := conn.calls ++ [c] }

/-- The `try` block of `handlePayCommand` with every call on `this.db` recorded. -/
def payTransactionTraced (fault : Nat → Bool) (conn : Conn) (user target : String)
    (amount : Int) : Except Conn (Conn × Reply) := do
  let c1 ← conn.call (fault 0) DbCall.beginTransaction Db.beginTransaction
  let c2 ← c1.call (fault 1) (DbCall.selectBalance user) id
  let senderRows := selectBalance c2.db.current user
  let senderBalance := firstBalanceOrZero senderRows
  if senderBalance < amount then
    let c3 ← c2.call (fault 2) DbCall.rollback Db.rollback
    return (c3, Reply.insufficientFunds)
  let c3 ← c2.call (fault 2) (DbCall.updateBalanceSub amount user)
    (fun d => d.write (updateBalanceSub amount user))
  let c4 ← c3.call (fault 3) (DbCall.insertOnDuplicateAdd target amount)
    (fun d => d.write (insertOnDuplicateAdd target amount))
  let c5 ← c4.call (fault 4) DbCall.commit Db.commit
  return (c5, Reply.paymentSuccessful)

/-- The handler of `/pay` with every call on `this.db` recorded, the rollback of the
`catch` block included. -/
def handlePayCommandTraced (fault : Nat → Bool) (conn : Conn) (user target : String)
    (amount : Int) : Conn × Reply :=
  if target = user then (conn, Reply.cannotPaySelf)
  else if amount ≤ 0 then (conn, Reply.amountMustBePositive)
  else
    match payTransactionTraced fault conn user target amount with
    | .ok r => r
    | .error c =>
      ({ db := c.db.rollback, calls := c.calls ++ [DbCall.rollback] }, Reply.paymentError)

/-- The `try` block of `handleEcoAdminCommand` with every call on `this.db` recorded. -/
def ecoAdminBodyTraced (fault : Nat → Bool) (conn : Conn) (subcommand target : String)
    (amount : Int) : Except Conn (Conn × Reply) := do
  if subcommand = "give" then
    let c1 ← conn.call (fault 0) (DbCall.insertOnDuplicateAdd target amount)
      (fun d => d.write (insertOnDuplicateAdd target amount))
    return (c1, Reply.added)
  else if subcommand = "take" then
    let c1 ← conn.call (fault 0) (DbCall.selectBalance target) id
    let rows := selectBalance c1.db.current target
    let currentBalance := firstBalanceOrZero rows
    if currentBalance < amount then
      return (c1, Reply.notEnoughFunds)
    let c2 ← c1.call (fault 1) (DbCall.updateBalanceSub amount target)
      (fun d => d.write (updateBalanceSub amount target))
    return (c2, Reply.removed)
  else
    return (conn, Reply.noReply)

/-- The handler of `/ecoadmin` with every call on `this.db` recorded. -/
def handleEcoAdminCommandTraced (fault : Nat → Bool) (isAdmin : Bool) (conn : Conn)
    (subcommand target : String) (amount : Int) : Conn × Reply :=
  match permissionsHasADMINISTRATOR isAdmin with
  | none => (conn, Reply.threw)
  | some false => (conn, Reply.noPermission)
  | some true =>
    match ecoAdminBodyTraced fault conn subcommand target amount with
    | .ok r => r
    | .error c => (c, Reply.adminError)

/-! ### Handlers running concurrently on the one connection

All handlers use the single connection `this.db` opened by `initializeDatabase`.  A
handler gives up control at each `await`; the calls of the handlers that are running at
the same time reach the connection one at a time, in some interleaved order. -/

/-- Where a run of `handlePayCommand` stands: the call on `this.db` it issues next, or
the answer it has given. -/
inductive PayPc where
  /-- Next: `beginTransaction()` (line 155). -/
  | begin
  /-- Next: the `SELECT` of the sender's balance and the test of line 165. -/
  | select
  /-- Next: `rollback()` of the insufficient-funds branch (line 166). -/
  | rollback
  /-- Next: the `UPDATE` of the sender (line 172). -/
  | update
  /-- Next: the `INSERT ... ON DUPLICATE KEY UPDATE` of the receiver (line 178). -/
  | insert
  /-- Next: `commit()` (line 185). -/
  | commit
  /-- The handler has answered. -/
  | finished (reply : Reply)
  deriving DecidableEq, Repr

/-- A run of `handlePayCommand`. -/
structure PayRun where
  user : String
  target : String
  amount : Int
  pc : PayPc
  deriving DecidableEq, Repr

/-- The run after the two checks that precede the `try` block. -/
def PayRun.init (user target : String) (amount : Int) : PayRun :=
  { user := user, target := target, amount := amount,
    pc := if target = user then PayPc.finished Reply.cannotPaySelf
          else if amount ≤ 0 then PayPc.finished Reply.amountMustBePositive
          else PayPc.begin }

/-- The next call of the run on the connection (no call throws). -/
def PayRun.step (p : PayRun) (db : Db) : PayRun × Db :=
  match p.pc with
  | .begin => ({ p with pc := PayPc.select }, db.beginTransaction)
  | .select =>
    if firstBalanceOrZero (selectBalance db.current p.user) < p.amount then
      ({ p with pc := PayPc.rollback }, db)
    else ({ p with pc := PayPc.update }, db)
  | .rollback => ({ p with pc := PayPc.finished Reply.insufficientFunds }, db.rollback)
  | .update => ({ p with pc := PayPc.insert }, db.write (updateBalanceSub p.amount p.user))
  | .insert => ({ p with pc := PayPc.commit }, db.write (insertOnDuplicateAdd p.target p.amount))
  | .commit => ({ p with pc := PayPc.finished Reply.paymentSuccessful }, db.commit)
  | .finished _ => (p, db)

/-- Where a run of the `take` branch of `handleEcoAdminCommand` stands. -/
inductive TakePc where
  /-- Next: the `SELECT` of the target's balance and the test of line 268. -/
  | select
  /-- Next: the `UPDATE` of the target (line 273). -/
  | update
  /-- The handler has answered. -/
  | finished (reply : Reply)
  deriving DecidableEq, Repr

/-- A run of `/ecoadmin take` issued by an administrator. -/
structure TakeRun where
  target : String
  amount : Int
  pc : TakePc
  deriving DecidableEq, Repr

/-- The run at the start of the `take` branch. -/
def TakeRun.init (target : String) (amount : Int) : TakeRun :=
  { target := target, amount := amount, pc := TakePc.select }

/-- The next call of the run on the connection (no call throws). -/
def TakeRun.step (p : TakeRun) (db : Db) : TakeRun × Db :=
  match p.pc with
  | .select =>
    if firstBalanceOrZero (selectBalance db.current p.target) < p.amount then
      ({ p with pc := TakePc.finished Reply.notEnoughFunds }, db)
    else ({ p with pc := TakePc.update }, db)
  | .update =>
    ({ p with pc := TakePc.finished Reply.removed }, db.write (updateBalanceSub p.amount p.target))
  | .finished _ => (p, db)

/-- Runs `runs` side by side: each entry of `schedule` names the run whose next call
reaches the connection.  The result lists the connection after every call, oldest
first, next to the final runs and connection. -/
def interleave {α : Type} (step : α → Db → α × Db) :
    List Nat → List α → Db → List α × Db × List Db
  | [], runs, db => (runs, db, [])
  | i :: schedule, runs, db =>
    match runs.get? i with
    | some r =>
      let next := step r db
      let rest := interleave step schedule (runs.set i next.1) next.2
      (rest.1, rest.2.1, next.2 :: rest.2.2)
    | none => interleave step schedule runs db

end EconomyCommands

/-! # Role manager (`modules/roleManager.js`) -/

namespace RoleManager

/-- What `validateRoleHierarchy` reads of a guild member: the answer of
`member.permissions.has(PermissionsBitField.Flags.ManageRoles)` and
`member.roles.highest.position`. -/
structure Member where
  hasManageRoles : Bool
  highestPosition : Int
  deriving DecidableEq, Repr

/-- What `validateRoleHierarchy` reads of a role: `role.position`. -/
structure Role where
  position : Int
  deriving DecidableEq, Repr

/-- The method `validateRoleHierarchy(member, role)`. -/
def validateRoleHierarchy (member : Member) (role : Role) : Bool :=
  if !member.hasManageRoles then false
  else decide (member.highestPosition > role.position)

/-- A guild member handed to `bulkAssignRole`, with what `member.roles.add(role, reason)`
does for it in that call: `none` when it resolves, `some message` when it throws an
error with that `message`. -/
structure BulkMember where
  id : String
  addThrows : Option String
  deriving DecidableEq, Repr

/-- An entry of `results.failed`. -/
structure Failure where
  memberId : String
  error : String
  deriving DecidableEq, Repr

/-- The object `results` of `bulkAssignRole`. -/
structure BulkResults where
  successful : List String
  failed : List Failure
  deriving DecidableEq, Repr

/-- The body of the loop `for (const member of members)`: the `try` pushes the id onto
`successful`, the `catch` pushes id and message onto `failed`. -/
def bulkAssignStep (results : BulkResults) (member : BulkMember) : BulkResults :=
  match member.addThrows with
  | none => { results with successful := results.successful ++ [member.id] }
  | some message =>
    { results with failed := results.failed ++ [{ memberId := member.id, error := message }] }

/-- The method `bulkAssignRole(role, members, reason)`; role and reason reach only
`member.roles.add`, whose outcome each entry of `members` carries. -/
def bulkAssignRole (members : List BulkMember) : BulkResults :=
  members.foldl bulkAssignStep { successful := [], failed := [] }

end RoleManager

/-! # Panel servers (`panel_implementation/convex/pterodactyl.ts`) -/

namespace Pterodactyl

/-- An element of the argument `servers` of `updateServers`. -/
structure ServerArgs where
  name : String
  serverId : String
  status : String
  deriving DecidableEq, Repr

/-- A document of the table `servers` (`schema.ts`), with the `_id` the database gave it. -/
structure ServerDoc where
  _id : Nat
  name : String
  serverId : String
  status : String
  userId : String
  deriving DecidableEq, Repr

/-- The table `servers`, in creation order, and the next `_id` the database hands out. -/
structure ConvexDb where
  servers : List ServerDoc
  nextId : Nat
  deriving DecidableEq, Repr

/-- The query `ctx.db.query("servers").withIndex("by_user", q => q.eq("userId",
userId)).collect()`. -/
def byUser (db : ConvexDb) (userId : String) : List ServerDoc :=
  db.servers.filter (fun d => d.userId = userId)

/-- Effect of `ctx.db.delete(id)`. -/
def ConvexDb.delete (db : ConvexDb) (id : Nat) : ConvexDb :=
  { db with servers := db.servers.filter (fun d => d._id ≠ id) }

/-- Effect of `ctx.db.insert("servers", { ...server, userId })`. -/
def ConvexDb.insert (db : ConvexDb) (server : ServerArgs) (userId : String) : ConvexDb :=
  { servers := db.servers ++
      [{ _id := db.nextId, name := server.name, serverId := server.serverId,
         status := server.status, userId := userId }],
    nextId := db.nextId + 1 }

/-- The mutation `updateServers`; `auth` is what `getAuthUserId(ctx)` returns.  A throw
is an `error`, and the table keeps the state it had before the call. -/
def updateServers (auth : Option String) (db : ConvexDb) (servers : List ServerArgs) :
    Except String ConvexDb :=
  match auth with
  | none => .error "Not authenticated"
  | some userId =>
    let existing := byUser db userId
    let cleared := existing.foldl (fun d server => d.delete server._id) db
    .ok (servers.foldl (fun d server => d.insert server userId) cleared)

/-- The table after a call of `updateServers`. -/
def tableAfter (auth : Option String) (db : ConvexDb) (servers : List ServerArgs) : ConvexDb :=
  match updateServers auth db servers with
  | .ok db' => db'
  | .error _ => db

/-- The query `listServers`. -/
def listServers (auth : Option String) (db : ConvexDb) : List ServerDoc :=
  match auth with
  | none => []
  | some userId => byUser db userId

/-- What the database guarantees of its `_id`s: no two documents share one, and every
one was handed out before `nextId`. -/
def WellFormed (db : ConvexDb) : Prop :=
  (db.servers.map fun d => d._id).Nodup ∧ ∀ d ∈ db.servers, d._id < db.nextId

instance (db : ConvexDb) : Decidable (WellFormed db) :=
  inferInstanceAs (Decidable (_ ∧ _))

/-- The entry `server` as `updateServers` stores it for `userId`, without the `_id`. -/
def stored (userId : String) (server : ServerArgs) : String × String × String × String :=
  (server.name, server.serverId, server.status, userId)

/-- A document without its `_id`. -/
def ServerDoc.fields (d : ServerDoc) : String × String × String × String :=
  (d.name, d.serverId, d.status, d.userId)

end Pterodactyl

/-! # Tickets (`modules/ticketSystem.js`, `modules/ticketCommands.js`) -/

namespace TicketSystem

/-- A value of the map `this.tickets` (the field `createdAt` is left out). -/
structure Ticket where
  id : Nat
  userId : String
  status : String
  messages : List String
  deriving DecidableEq, Repr

/-- The fields `tickets` (a `Map` from channel id to ticket, in insertion order) and
`ticketCounter`. -/
structure State where
  tickets : List (String × Ticket)
  ticketCounter : Nat
  deriving DecidableEq, Repr

/-- The state the constructor sets up. -/
def fresh : State := { tickets := [], ticketCounter := 0 }

/-- `Map.prototype.get`. -/
def mapGet (m : List (String × Ticket)) (key : String) : Option Ticket :=
  (m.find? fun kv => kv.1 = key).map fun kv => kv.2

/-- `Map.prototype.set`: an existing key keeps its place and takes the new value, a new
key goes to the end. -/
def mapSet (m : List (String × Ticket)) (key : String) (value : Ticket) :
    List (String × Ticket) :=
  if m.any (fun kv => kv.1 = key) then
    m.map fun kv => if kv.1 = key then (key, value) else kv
  else m ++ [(key, value)]

/-- `Map.prototype.delete`. -/
def mapDelete (m : List (String × Ticket)) (key : String) : List (String × Ticket) :=
  m.filter fun kv => kv.1 ≠ key

/-- The method `handleTicketCreate`: `customId` and `userId` come from the interaction,
`ticketChannel` is the id of the channel `createTicketChannel` returned, `none` when it
returned `null`. -/
def handleTicketCreate (s : State) (customId userId : String) (ticketChannel : Option String) :
    State :=
  if customId ≠ "create_ticket" then s
  else
    let ticketId := s.ticketCounter + 1
    match ticketChannel with
    | none => { tickets := s.tickets, ticketCounter := ticketId }
    | some channelId =>
      { tickets := mapSet s.tickets channelId
          { id := ticketId, userId := userId, status := "open", messages := [] },
        ticketCounter := ticketId }

/-- The method `handleTicketClose`: `completes` says whether the awaited calls before
`this.tickets.delete` (fetching the messages and the user, deleting the channel) all
resolve; when one throws the ticket stays stored. -/
def handleTicketClose (s : State) (customId channelId : String) (completes : Bool) : State :=
  if customId ≠ "close_ticket" then s
  else
    match mapGet s.tickets channelId with
    | none => s
    | some _ =>
      if completes then { tickets := mapDelete s.tickets channelId, ticketCounter := s.ticketCounter }
      else s

/-- A call of one of the two handlers. -/
inductive Call where
  | create (customId userId : String) (ticketChannel : Option String)
  | close (customId channelId : String) (completes : Bool)
  deriving DecidableEq, Repr

/-- The state after one call. -/
def Call.run (c : Call) (s : State) : State :=
  match c with
  | .create customId userId ticketChannel => handleTicketCreate s customId userId ticketChannel
  | .close customId channelId completes => handleTicketClose s customId channelId completes

/-- The state after a sequence of calls. -/
def runCalls (calls : List Call) (s : State) : State :=
  calls.foldl (fun st c => c.run st) s

/-- The object `stats` of `TicketCommands.handleStatsCommand`. -/
structure Stats where
  total : Int
  «open» : Int
  closed : Int
  deriving DecidableEq, Repr

/-- The statistics `handleStatsCommand` computes from the ticket system. -/
def handleStatsCommand (s : State) : Stats :=
  { total := s.ticketCounter,
    «open» := ((s.tickets.map fun kv => kv.2).filter fun t => t.status = "open").length,
    closed := (s.ticketCounter : Int)
      - ((s.tickets.map fun kv => kv.2).filter fun t => t.status = "open").length }

/-- The invariant of the ticket system: the map has no key twice; every stored ticket is
open and has an id between 1 and `ticketCounter`; no two stored tickets share an id;
there are at most `ticketCounter` stored tickets. -/
def Invariant (s : State) : Prop :=
  (s.tickets.map fun kv => kv.1).Nodup ∧
  (∀ kv ∈ s.tickets, kv.2.status = "open" ∧ 1 ≤ kv.2.id ∧ kv.2.id ≤ s.ticketCounter) ∧
  (s.tickets.map fun kv => kv.2.id).Nodup ∧
  s.tickets.length ≤ s.ticketCounter

end TicketSystem

/-! # Statistics (`modules/statsCommands.js`) -/

namespace StatsCommands

/-- The expression `Math.floor(hours / 24)` for a non-negative integer `hours` held in a
JavaScript number.  The division is that of doubles: the exact quotient is rounded to
the nearest number with a significand of 53 bits, ties to even, and `Math.floor` rounds
that number down.  The quotient is taken of the numerator scaled by 2^64, so that the
rounding falls on a whole bit: `e` is the weight of the last bit kept, `q` the
significand rounded down and `r` the remainder that decides the rounding. -/
def floorDiv24 (hours : Nat) : Nat :=
  let x := hours * 2 ^ 64
  let e := EconomyCommands.floorLog2 (x / 24) - 52
  let q := x / (24 * 2 ^ e)
  let r := x % (24 * 2 ^ e)
  let significand :=
    if 2 * r > 24 * 2 ^ e ∨ (2 * r = 24 * 2 ^ e ∧ q % 2 = 1) then q + 1 else q
  significand * 2 ^ e / 2 ^ 64

/-- The method `formatTime(hours)` on a non-negative integer held in a JavaScript
number.  The remainder `hours % 24` of doubles is exact.  The template literal writes a
whole number below 2^53 in decimal digits, as `toString` does; greater numbers it writes
with the fewest digits that read back as the same double, which is outside the model. -/
def formatTime (hours : Nat) : String :=
  let days := floorDiv24 hours
  let remainingHours := hours % 24
  if days > 0 then toString days ++ "d " ++ toString remainingHours ++ "h"
  else toString hours ++ "h"

end StatsCommands

namespace EconomyCommands

/-! ### Lemmas on the statements -/

theorem firstBalanceOrZero_nil : firstBalanceOrZero [] = 0 := rfl

theorem firstBalanceOrZero_cons (r : Row) (rs : List Row) :
    firstBalanceOrZero (r :: rs) = r.balance := by
  unfold firstBalanceOrZero
  by_cases h : r.balance = 0 <;> simp [h]

theorem balanceOf_nil (u : String) : balanceOf [] u = 0 := rfl

theorem balanceOf_cons (r : Row) (s : Store) (u : String) :
    balanceOf (r :: s) u = if r.uuid = u then r.balance else balanceOf s u := by
  unfold balanceOf selectBalance
  by_cases h : r.uuid = u
  · simp [List.filter_cons, h, firstBalanceOrZero_cons]
  · simp [List.filter_cons, h]

theorem hasAccount_cons (r : Row) (s : Store) (u : String) :
    hasAccount (r :: s) u = (decide (r.uuid = u) || hasAccount s u) := by
  simp [hasAccount]

theorem balanceOf_of_not_hasAccount (s : Store) (u : String) (h : hasAccount s u = false) :
    balanceOf s u = 0 := by
  induction s with
  | nil => rfl
  | cons r s ih =>
    rw [hasAccount_cons] at h
    simp only [Bool.or_eq_false_iff, decide_eq_false_iff_not] at h
    rw [balanceOf_cons, if_neg h.1, ih h.2]

theorem balanceOf_updateBalanceSub_self (s : Store) (u : String) (amount : Int) :
    balanceOf (updateBalanceSub amount u s) u
      = if hasAccount s u then roundDouble (balanceOf s u - amount) else 0 := by
  induction s with
  | nil => rfl
  | cons r s ih =>
    have hc : updateBalanceSub amount u (r :: s)
        = (if r.uuid = u then { r with balance := roundDouble (r.balance - amount) } else r)
            :: updateBalanceSub amount u s := rfl
    rw [hc, balanceOf_cons, hasAccount_cons, balanceOf_cons]
    by_cases h : r.uuid = u
    · simp [h]
    · simp [h, ih]

theorem balanceOf_updateBalanceSub_other (s : Store) (u v : String) (amount : Int)
    (h : v ≠ u) : balanceOf (updateBalanceSub amount u s) v = balanceOf s v := by
  induction s with
  | nil => rfl
  | cons r s ih =>
    have hc : updateBalanceSub amount u (r :: s)
        = (if r.uuid = u then { r with balance := roundDouble (r.balance - amount) } else r)
            :: updateBalanceSub amount u s := rfl
    rw [hc, balanceOf_cons, balanceOf_cons, ih]
    by_cases hu : r.uuid = u
    · have hv : ¬ r.uuid = v := fun e => h (e.symm.trans hu)
      simp [hu, hv, h.symm]
    · simp [hu]

theorem balanceOf_map_add_self (s : Store) (u : String) (amount : Int)
    (h : hasAccount s u = true) :
    balanceOf (s.map (fun r =>
        if r.uuid = u then { r with balance := roundDouble (r.balance + amount) } else r)) u
      = roundDouble (balanceOf s u + amount) := by
  induction s with
  | nil => simp [hasAccount] at h
  | cons r s ih =>
    rw [List.map_cons, balanceOf_cons, balanceOf_cons]
    by_cases hu : r.uuid = u
    · simp [hu]
    · rw [hasAccount_cons] at h
      simp only [hu, decide_False, Bool.false_or] at h
      simp [hu, ih h]

theorem balanceOf_map_add_other (s : Store) (u v : String) (amount : Int) (h : v ≠ u) :
    balanceOf (s.map (fun r =>
        if r.uuid = u then { r with balance := roundDouble (r.balance + amount) } else r)) v
      = balanceOf s v := by
  induction s with
  | nil => rfl
  | cons r s ih =>
    rw [List.map_cons, balanceOf_cons, balanceOf_cons, ih]
    by_cases hu : r.uuid = u
    · have hv : ¬ r.uuid = v := fun e => h (e.symm.trans hu)
      simp [hu, hv, h.symm]
    · simp [hu]

theorem balanceOf_append_single (s : Store) (r : Row) (v : String) :
    balanceOf (s ++ [r]) v
      = if hasAccount s v then balanceOf s v else if r.uuid = v then r.balance else 0 := by
  induction s with
  | nil => simp [balanceOf_cons, balanceOf_nil, hasAccount]
  | cons q s ih =>
    rw [List.cons_append, balanceOf_cons, balanceOf_cons, hasAccount_cons, ih]
    by_cases hq : q.uuid = v <;> simp [hq]

theorem balanceOf_insertOnDuplicateAdd_self (s : Store) (u : String) (amount : Int) :
    balanceOf (insertOnDuplicateAdd u amount s) u
      = if hasAccount s u then roundDouble (balanceOf s u + amount) else amount := by
  unfold insertOnDuplicateAdd
  by_cases h : hasAccount s u = true
  · have h' : (s.any fun r => decide (r.uuid = u)) = true := h
    rw [if_pos h', if_pos h, balanceOf_map_add_self s u amount h]
  · have h' : ¬ (s.any fun r => decide (r.uuid = u)) = true := h
    rw [if_neg h', if_neg h, balanceOf_append_single]
    simp only [Bool.not_eq_true] at h
    simp [h]

theorem roundDouble_nonneg (n : Int) (h : 0 ≤ n) : 0 ≤ roundDouble n := by
  unfold roundDouble
  rw [if_pos h]
  exact Int.natCast_nonneg _

/-- A number of fewer than `2^53` quanta is a double: rounding leaves it as it is. -/
theorem roundDouble_of_natAbs_lt (n : Int) (h : n.natAbs < 9007199254740992) :
    roundDouble n = n := by
  unfold roundDouble roundNat
  rw [if_pos h]
  by_cases hn : 0 ≤ n
  · rw [if_pos hn]; exact Int.natAbs_of_nonneg hn
  · rw [if_neg hn]
    have : n < 0 := not_le.mp hn
    omega

theorem log2Aux_eq_log (fuel n : Nat) (h : n ≤ fuel) : log2Aux fuel n = Nat.log 2 n := by
  induction fuel generalizing n with
  | zero =>
    have hn : n = 0 := Nat.le_zero.mp h
    subst hn
    rw [Nat.log_zero_right]
    rfl
  | succ fuel ih =>
    unfold log2Aux
    by_cases h2 : 2 ≤ n
    · rw [if_pos h2, ih (n / 2) (by omega), Nat.log_of_one_lt_of_le (by decide) h2]
    · rw [if_neg h2, Nat.log_of_lt (not_le.mp h2)]

/-- The function `floorLog2` is the floor of the logarithm to base 2. -/
theorem floorLog2_eq_log (n : Nat) : floorLog2 n = Nat.log 2 n :=
  log2Aux_eq_log n n le_rfl

/-- Rounding does not depend on the quantum: counting in quanta half as large doubles
the magnitude and doubles its rounding. -/
theorem roundNat_two_mul (a : Nat) : roundNat (2 * a) = 2 * roundNat a := by
  unfold roundNat
  by_cases h2 : 2 * a < 9007199254740992
  · have h1 : a < 9007199254740992 := by omega
    rw [if_pos h2, if_pos h1]
  · rw [if_neg h2]
    by_cases h1 : a < 9007199254740992
    · rw [if_pos h1]
      have hlog : floorLog2 (2 * a) = 53 := by
        rw [floorLog2_eq_log, Nat.log_eq_iff (Or.inl (by decide))]
        constructor
        · norm_num; omega
        · norm_num; omega
      simp only [hlog]
      norm_num
      omega
    · rw [if_neg h1]
      have ha : a ≠ 0 := by omega
      have hlog : floorLog2 (2 * a) = floorLog2 a + 1 := by
        rw [floorLog2_eq_log, floorLog2_eq_log, mul_comm, Nat.log_mul_base (by decide) ha]
      have hge : 53 ≤ floorLog2 a := by
        rw [floorLog2_eq_log]
        apply Nat.le_log_of_pow_le (by decide)
        norm_num
        omega
      have he : floorLog2 (2 * a) - 52 = (floorLog2 a - 52) + 1 := by omega
      simp only [he]
      generalize floorLog2 a - 52 = e
      have hE : 0 < 2 ^ e := pow_pos (by decide) e
      have hp : 2 ^ (e + 1) = 2 * 2 ^ e := by rw [pow_succ, mul_comm]
      rw [hp, Nat.mul_div_mul_left _ _ (by decide : 0 < 2), Nat.mul_mod_mul_left]
      by_cases hc : 2 * (a % 2 ^ e) > 2 ^ e ∨ (2 * (a % 2 ^ e) = 2 ^ e ∧ a / 2 ^ e % 2 = 1)
      · have hc' : 2 * (2 * (a % 2 ^ e)) > 2 * 2 ^ e ∨
            (2 * (2 * (a % 2 ^ e)) = 2 * 2 ^ e ∧ a / 2 ^ e % 2 = 1) := by
          rcases hc with hc | ⟨hc, ho⟩
          · left; omega
          · right; exact ⟨by omega, ho⟩
        rw [if_pos hc, if_pos hc']
        ring
      · have hc' : ¬ (2 * (2 * (a % 2 ^ e)) > 2 * 2 ^ e ∨
            (2 * (2 * (a % 2 ^ e)) = 2 * 2 ^ e ∧ a / 2 ^ e % 2 = 1)) := by
          intro h
          apply hc
          rcases h with h | ⟨h, ho⟩
          · left; omega
          · right; exact ⟨by omega, ho⟩
        rw [if_neg hc, if_neg hc']
        ring

/-- The same for `roundDouble`. -/
theorem roundDouble_two_mul (n : Int) : roundDouble (2 * n) = 2 * roundDouble n := by
  unfold roundDouble
  have habs : (2 * n).natAbs = 2 * n.natAbs := by
    rw [Int.natAbs_mul]; rfl
  rw [habs, roundNat_two_mul]
  by_cases hn : 0 ≤ n
  · have h2 : 0 ≤ 2 * n := by omega
    rw [if_pos hn, if_pos h2]
    push_cast
    ring
  · have h2 : ¬ 0 ≤ 2 * n := by omega
    rw [if_neg hn, if_neg h2]
    push_cast
    ring
theorem balanceOf_insertOnDuplicateAdd_other (s : Store) (u v : String) (amount : Int)
    (h : v ≠ u) : balanceOf (insertOnDuplicateAdd u amount s) v = balanceOf s v := by
  unfold insertOnDuplicateAdd
  split
  · exact balanceOf_map_add_other s u v amount h
  · rw [balanceOf_append_single]
    by_cases hv : hasAccount s v = true
    · simp [hv]
    · simp only [Bool.not_eq_true] at hv
      simp [hv, h.symm, balanceOf_of_not_hasAccount s v hv]

theorem hasAccount_insertOnDuplicateAdd_self (s : Store) (u : String) (amount : Int) :
    hasAccount (insertOnDuplicateAdd u amount s) u = true := by
  unfold insertOnDuplicateAdd
  split
  · rename_i h
    simp only [hasAccount, List.any_map]
    simp only [List.any_eq_true, decide_eq_true_eq, Function.comp] at h ⊢
    obtain ⟨r, hr, hu⟩ := h
    exact ⟨r, hr, by simp [hu]⟩
  · simp [hasAccount]

theorem hasAccount_of_balanceOf_pos (s : Store) (u : String) (h : 0 < balanceOf s u) :
    hasAccount s u = true := by
  by_contra hn
  simp only [Bool.not_eq_true] at hn
  rw [balanceOf_of_not_hasAccount s u hn] at h
  exact lt_irrefl 0 h

theorem accountIds_updateBalanceSub (s : Store) (u : String) (amount : Int) :
    accountIds (updateBalanceSub amount u s) = accountIds s := by
  induction s with
  | nil => rfl
  | cons r s ih =>
    have hc : accountIds (updateBalanceSub amount u (r :: s))
        = (if r.uuid = u then { r with balance := roundDouble (r.balance - amount) } else r).uuid
            :: accountIds (updateBalanceSub amount u s) := rfl
    rw [hc, ih]
    by_cases h : r.uuid = u <;> simp [h, accountIds]

theorem hasAccount_eq_mem_accountIds (s : Store) (u : String) :
    hasAccount s u = true ↔ u ∈ accountIds s := by
  simp only [hasAccount, accountIds, List.any_eq_true, decide_eq_true_eq, List.mem_map]

theorem hasAccount_updateBalanceSub (s : Store) (u id : String) (amount : Int) :
    hasAccount (updateBalanceSub amount u s) id = hasAccount s id := by
  rw [Bool.eq_iff_iff, hasAccount_eq_mem_accountIds, hasAccount_eq_mem_accountIds,
    accountIds_updateBalanceSub]

/-! ### The handlers on a connection with no open transaction -/

theorem payTransaction_idle (fault : Nat → Bool) (s : Store) (user target : String)
    (amount : Int) :
    payTransaction fault (Db.idle s) user target amount =
      if fault 0 then .error (Db.idle s)
      else if fault 1 then .error ⟨s, some s⟩
      else if balanceOf s user < amount then
        (if fault 2 then .error ⟨s, some s⟩ else .ok (Db.idle s, Reply.insufficientFunds))
      else if fault 2 then .error ⟨s, some s⟩
      else if fault 3 then .error ⟨s, some (updateBalanceSub amount user s)⟩
      else if fault 4 then .error ⟨s, some (paidStore s user target amount)⟩
      else .ok (Db.idle (paidStore s user target amount), Reply.paymentSuccessful) := by
  unfold payTransaction attempt
  cases h0 : fault 0 <;> cases h1 : fault 1 <;> cases h2 : fault 2 <;>
    cases h3 : fault 3 <;> cases h4 : fault 4 <;>
    by_cases hb : balanceOf s user < amount <;>
    simp [hb, bind, Except.bind, pure, Except.pure, Db.idle, Db.beginTransaction, Db.current,
      Db.write, Db.commit, Db.rollback, paidStore, balanceOf]

/-- A payment that reaches the `try` block either commits both writes or leaves the
connection as it found it. -/
theorem handlePayCommand_idle (fault : Nat → Bool) (s : Store) (user target : String)
    (amount : Int) (hne : target ≠ user) (hpos : 0 < amount) :
    handlePayCommand fault (Db.idle s) user target amount =
      if fault 0 = true ∨ fault 1 = true ∨ fault 2 = true then (Db.idle s, Reply.paymentError)
      else if balanceOf s user < amount then (Db.idle s, Reply.insufficientFunds)
      else if fault 3 = true ∨ fault 4 = true then (Db.idle s, Reply.paymentError)
      else (Db.idle (paidStore s user target amount), Reply.paymentSuccessful) := by
  unfold handlePayCommand
  rw [if_neg hne, if_neg (not_le.mpr hpos), payTransaction_idle]
  cases h0 : fault 0 <;> cases h1 : fault 1 <;> cases h2 : fault 2 <;>
    cases h3 : fault 3 <;> cases h4 : fault 4 <;>
    by_cases hb : balanceOf s user < amount <;>
    simp [hb, Db.idle, Db.rollback]

theorem balanceOf_paidStore_sender (s : Store) (user target : String) (amount : Int)
    (hne : target ≠ user) (hpos : 0 < amount) (hbal : amount ≤ balanceOf s user) :
    balanceOf (paidStore s user target amount) user
      = roundDouble (balanceOf s user - amount) := by
  unfold paidStore
  rw [balanceOf_insertOnDuplicateAdd_other _ target user amount (Ne.symm hne),
    balanceOf_updateBalanceSub_self,
    if_pos (hasAccount_of_balanceOf_pos s user (lt_of_lt_of_le hpos hbal))]

theorem balanceOf_paidStore_target (s : Store) (user target : String) (amount : Int)
    (hne : target ≠ user) :
    balanceOf (paidStore s user target amount) target
      = if hasAccount s target then roundDouble (balanceOf s target + amount) else amount := by
  unfold paidStore
  rw [balanceOf_insertOnDuplicateAdd_self, hasAccount_updateBalanceSub,
    balanceOf_updateBalanceSub_other _ user target amount hne]

/-! ### Claims -/

/-- C1, as stated, fails: balances and amounts are doubles.  First, A holds 2^53 and B
holds 1 (quantum 1), and A pays 2^53 to B: the payment is answered 'Payment Successful'
and B ends with 2^53, not with 1 + 2^53, so the two balances add up to 1 less than
before.  Second, in quanta of 2^-55, A holds 0.3, B holds 0.7 and A pays 0.1 (the
doubles nearest to these decimals): B ends one quantum below its old balance plus the
amount, and the sum of the two balances, 1 before the payment when added as doubles, is
0.9999999999999999 after it. -/
theorem pay_rounding_breaks_conservation :
    (roundDouble 9007199254740992 = 9007199254740992 ∧ roundDouble 1 = 1) ∧
    handlePayCommand noFault (Db.idle [⟨"A", 9007199254740992⟩, ⟨"B", 1⟩]) "A" "B"
        9007199254740992
      = (Db.idle [⟨"A", 0⟩, ⟨"B", 9007199254740992⟩], Reply.paymentSuccessful) ∧
    balanceOf (handlePayCommand noFault (Db.idle [⟨"A", 9007199254740992⟩, ⟨"B", 1⟩]) "A" "B"
        9007199254740992).1.committed "B"
      ≠ balanceOf [⟨"A", 9007199254740992⟩, ⟨"B", 1⟩] "B" + 9007199254740992 ∧
    balanceOf (handlePayCommand noFault (Db.idle [⟨"A", 9007199254740992⟩, ⟨"B", 1⟩]) "A" "B"
        9007199254740992).1.committed "A"
      + balanceOf (handlePayCommand noFault (Db.idle [⟨"A", 9007199254740992⟩, ⟨"B", 1⟩]) "A"
        "B" 9007199254740992).1.committed "B"
      ≠ balanceOf [⟨"A", 9007199254740992⟩, ⟨"B", 1⟩] "A"
        + balanceOf [⟨"A", 9007199254740992⟩, ⟨"B", 1⟩] "B" ∧
    (roundDouble 10808639105689190 = 10808639105689190 ∧
      roundDouble 25220157913274776 = 25220157913274776 ∧
      roundDouble 3602879701896397 = 3602879701896397) ∧
    handlePayCommand noFault
        (Db.idle [⟨"A", 10808639105689190⟩, ⟨"B", 25220157913274776⟩]) "A" "B" 3602879701896397
      = (Db.idle [⟨"A", 7205759403792793⟩, ⟨"B", 28823037615171172⟩],
          Reply.paymentSuccessful) ∧
    (28823037615171172 : Int) ≠ 25220157913274776 + 3602879701896397 ∧
    (7205759403792793 : Int) + 28823037615171172 ≠ 10808639105689190 + 25220157913274776 ∧
    roundDouble (10808639105689190 + 25220157913274776) = 36028797018963968 ∧
    roundDouble (7205759403792793 + 28823037615171172) = 36028797018963964 := by
  refine ⟨by decide, by decide, by decide, by decide, by decide, by decide, by decide,
    by decide, by decide, by decide⟩

/-- C1, amended. A payment from `a` to a different account `b` of an amount `amt > 0` that
`a` can afford succeeds when no database call throws; and whenever the handler answers
'Payment Successful', the connection is left without an open transaction, the balance of
`a` is the double nearest to its old balance minus `amt`, and the balance of `b` is the
double nearest to its old balance plus `amt`, or `amt` itself when `b` had no row (then
it is the old balance, 0, plus `amt`).  When the exact difference and the exact sum are
doubles, as they are for values of fewer than 2^53 quanta, `a` has gone down by `amt`,
`b` has gone up by `amt`, and the sum of the two balances is what it was. -/
theorem pay_debits_and_credits_rounded (s : Store) (a b : String) (amt : Int)
    (hab : a ≠ b) (hpos : 0 < amt) (hbal : amt ≤ balanceOf s a) :
    (handlePayCommand noFault (Db.idle s) a b amt).2 = Reply.paymentSuccessful ∧
    ∀ fault : Nat → Bool,
      (handlePayCommand fault (Db.idle s) a b amt).2 = Reply.paymentSuccessful →
        (handlePayCommand fault (Db.idle s) a b amt).1.tx = none ∧
        balanceOf (handlePayCommand fault (Db.idle s) a b amt).1.committed a
          = roundDouble (balanceOf s a - amt) ∧
        balanceOf (handlePayCommand fault (Db.idle s) a b amt).1.committed b
          = (if hasAccount s b then roundDouble (balanceOf s b + amt) else amt) ∧
        (hasAccount s b = false →
          balanceOf (handlePayCommand fault (Db.idle s) a b amt).1.committed b
            = balanceOf s b + amt) ∧
        (roundDouble (balanceOf s a - amt) = balanceOf s a - amt →
          roundDouble (balanceOf s b + amt) = balanceOf s b + amt →
            balanceOf (handlePayCommand fault (Db.idle s) a b amt).1.committed a
              = balanceOf s a - amt ∧
            balanceOf (handlePayCommand fault (Db.idle s) a b amt).1.committed b
              = balanceOf s b + amt ∧
            balanceOf (handlePayCommand fault (Db.idle s) a b amt).1.committed a
              + balanceOf (handlePayCommand fault (Db.idle s) a b amt).1.committed b
              = balanceOf s a + balanceOf s b) := by
  have hne : b ≠ a := Ne.symm hab
  have hnb : ¬ balanceOf s a < amt := not_lt.mpr hbal
  refine ⟨?_, ?_⟩
  · rw [handlePayCommand_idle noFault s a b amt hne hpos]
    simp [noFault, hnb]
  · intro fault
    rw [handlePayCommand_idle fault s a b amt hne hpos]
    have hs := balanceOf_paidStore_sender s a b amt hne hpos hbal
    have ht := balanceOf_paidStore_target s a b amt hne
    have ht0 : hasAccount s b = false → balanceOf (paidStore s a b amt) b
        = balanceOf s b + amt := by
      intro hno
      rw [ht, hno, balanceOf_of_not_hasAccount s b hno]
      simp
    have htr : roundDouble (balanceOf s b + amt) = balanceOf s b + amt →
        balanceOf (paidStore s a b amt) b = balanceOf s b + amt := by
      intro hr
      by_cases hb : hasAccount s b = true
      · rw [ht, if_pos hb, hr]
      · simp only [Bool.not_eq_true] at hb
        exact ht0 hb
    by_cases h1 : fault 0 = true ∨ fault 1 = true ∨ fault 2 = true
    · rw [if_pos h1]
      intro h
      cases h
    · rw [if_neg h1, if_neg hnb]
      by_cases h3 : fault 3 = true ∨ fault 4 = true
      · rw [if_pos h3]
        intro h
        cases h
      · rw [if_neg h3]
        intro _
        refine ⟨rfl, hs, ht, ht0, ?_⟩
        intro hra hrb
        have hs' : balanceOf (paidStore s a b amt) a = balanceOf s a - amt := by rw [hs, hra]
        refine ⟨hs', htr hrb, ?_⟩
        show balanceOf (paidStore s a b amt) a + balanceOf (paidStore s a b amt) b = _
        rw [hs', htr hrb]; ring

/-- Witness of `pay_debits_and_credits_rounded`: A pays 40 out of 100 to B. -/
theorem pay_debits_and_credits_rounded_witness :
    ("A" ≠ "B" ∧ (0 : Int) < 40 ∧ 40 ≤ balanceOf [⟨"A", 100⟩, ⟨"B", 0⟩] "A") ∧
    ((handlePayCommand noFault (Db.idle [⟨"A", 100⟩, ⟨"B", 0⟩]) "A" "B" 40).2 = Reply.paymentSuccessful ∧
    ∀ fault : Nat → Bool,
      (handlePayCommand fault (Db.idle [⟨"A", 100⟩, ⟨"B", 0⟩]) "A" "B" 40).2 = Reply.paymentSuccessful →
        (handlePayCommand fault (Db.idle [⟨"A", 100⟩, ⟨"B", 0⟩]) "A" "B" 40).1.tx = none ∧
        balanceOf (handlePayCommand fault (Db.idle [⟨"A", 100⟩, ⟨"B", 0⟩]) "A" "B" 40).1.committed "A"
          = roundDouble (balanceOf [⟨"A", 100⟩, ⟨"B", 0⟩] "A" - 40) ∧
        balanceOf (handlePayCommand fault (Db.idle [⟨"A", 100⟩, ⟨"B", 0⟩]) "A" "B" 40).1.committed "B"
          = (if hasAccount [⟨"A", 100⟩, ⟨"B", 0⟩] "B" then roundDouble (balanceOf [⟨"A", 100⟩, ⟨"B", 0⟩] "B" + 40)
              else 40) ∧
        (hasAccount [⟨"A", 100⟩, ⟨"B", 0⟩] "B" = false →
          balanceOf (handlePayCommand fault (Db.idle [⟨"A", 100⟩, ⟨"B", 0⟩]) "A" "B" 40).1.committed "B"
            = balanceOf [⟨"A", 100⟩, ⟨"B", 0⟩] "B" + 40) ∧
        (roundDouble (balanceOf [⟨"A", 100⟩, ⟨"B", 0⟩] "A" - 40) = balanceOf [⟨"A", 100⟩, ⟨"B", 0⟩] "A" - 40 →
          roundDouble (balanceOf [⟨"A", 100⟩, ⟨"B", 0⟩] "B" + 40) = balanceOf [⟨"A", 100⟩, ⟨"B", 0⟩] "B" + 40 →
            balanceOf (handlePayCommand fault (Db.idle [⟨"A", 100⟩, ⟨"B", 0⟩]) "A" "B" 40).1.committed "A"
              = balanceOf [⟨"A", 100⟩, ⟨"B", 0⟩] "A" - 40 ∧
            balanceOf (handlePayCommand fault (Db.idle [⟨"A", 100⟩, ⟨"B", 0⟩]) "A" "B" 40).1.committed "B"
              = balanceOf [⟨"A", 100⟩, ⟨"B", 0⟩] "B" + 40 ∧
            balanceOf (handlePayCommand fault (Db.idle [⟨"A", 100⟩, ⟨"B", 0⟩]) "A" "B" 40).1.committed "A"
              + balanceOf (handlePayCommand fault (Db.idle [⟨"A", 100⟩, ⟨"B", 0⟩]) "A" "B" 40).1.committed "B"
              = balanceOf [⟨"A", 100⟩, ⟨"B", 0⟩] "A" + balanceOf [⟨"A", 100⟩, ⟨"B", 0⟩] "B")) :=
  ⟨by decide,
    pay_debits_and_credits_rounded [⟨"A", 100⟩, ⟨"B", 0⟩] "A" "B" 40 (by decide) (by decide) (by decide)⟩

/-- Every run of the `/pay` handler on a connection with no open transaction either
answers 'Payment Successful' or hands the connection back unchanged. -/
theorem handlePayCommand_unchanged_or_successful (fault : Nat → Bool) (s : Store)
    (user target : String) (amount : Int) :
    (handlePayCommand fault (Db.idle s) user target amount).2 = Reply.paymentSuccessful ∨
    (handlePayCommand fault (Db.idle s) user target amount).1 = Db.idle s := by
  by_cases hne : target = user
  · right; simp [handlePayCommand, hne]
  · by_cases hpos : amount ≤ 0
    · right; simp [handlePayCommand, hne, hpos]
    · rw [handlePayCommand_idle fault s user target amount hne (not_le.mp hpos)]
      split_ifs <;> simp

/-- When no awaited call throws, the handler with every call a possible throw does what
`handlePayCommand` does. -/
theorem handlePayCommandFull_noFault (db : Db) (user target : String) (amount : Int) :
    handlePayCommandFull noFault db user target amount
      = handlePayCommand noFault db user target amount := by
  unfold handlePayCommandFull handlePayCommand payTransaction attempt
  by_cases hne : target = user
  · simp [hne, noFault]
  · by_cases hpos : amount ≤ 0
    · simp [hne, hpos, noFault]
    · by_cases hb : firstBalanceOrZero (selectBalance db.beginTransaction.current user) < amount
      · simp [hne, hpos, hb, noFault, bind, Except.bind, pure, Except.pure]
      · simp [hne, hpos, hb, noFault, bind, Except.bind, pure, Except.pure]

/-- A throw of a call on `this.db` inside the `try` block, followed by a `catch` block
whose two calls resolve, leaves the connection as it was and is answered with the
payment error: the schedule throws at call `k` only, `k` being one of the calls 1 to 5. -/
theorem handlePayCommandFull_single_db_fault (s : Store) (user target : String)
    (amount : Int) (k : Nat) (hk : 1 ≤ k ∧ k ≤ 5) (hne : target ≠ user) (hpos : 0 < amount)
    (hbal : amount ≤ balanceOf s user) :
    handlePayCommandFull (fun i => decide (i = k)) (Db.idle s) user target amount
      = (Db.idle s, Reply.paymentError) := by
  have hnb : ¬ firstBalanceOrZero (selectBalance s user) < amount := not_lt.mpr hbal
  have hp : ¬ amount ≤ 0 := not_le.mpr hpos
  obtain ⟨h1, h5⟩ := hk
  have hcases : k = 1 ∨ k = 2 ∨ k = 3 ∨ k = 4 ∨ k = 5 := by omega
  rcases hcases with rfl | rfl | rfl | rfl | rfl <;>
    simp [handlePayCommandFull, payCatch, hne, hp, hnb, Db.idle, Db.beginTransaction,
      Db.current, Db.write, Db.rollback]

/-- C2, the code at failing inputs: A holds 100 and pays 40 to B, who has no row.
First, every call on `this.db` resolves and the awaited `editReply` of line 193 (call 6)
throws: the `catch` block runs after the commit, its rollback undoes nothing, and the
handler answers with the payment error although A has been debited and the account B
created with 40.  Second, the `INSERT` (call 4) throws and then the `rollback()` of the
`catch` block (call 5) throws: the handler answers nothing and leaves the transaction
with the debit of A open on the connection; the next `/balance` of A on that connection
shows 60, and the `beginTransaction()` of the next `/pay`, here one that is refused,
commits the debit while B was never credited.  When only the `INSERT` throws, the
rollback restores the table. -/
theorem pay_failure_leaves_changes :
    handlePayCommandFull (fun k => decide (k = 6)) (Db.idle [⟨"A", 100⟩]) "A" "B" 40
      = (Db.idle [⟨"A", 60⟩, ⟨"B", 40⟩], Reply.paymentError) ∧
    hasAccount [⟨"A", 100⟩] "B" = false ∧
    hasAccount (handlePayCommandFull (fun k => decide (k = 6))
      (Db.idle [⟨"A", 100⟩]) "A" "B" 40).1.committed "B" = true ∧
    balanceOf (handlePayCommandFull (fun k => decide (k = 6))
      (Db.idle [⟨"A", 100⟩]) "A" "B" 40).1.committed "A" ≠ balanceOf [⟨"A", 100⟩] "A" ∧
    handlePayCommandFull (fun k => decide (k = 4 ∨ k = 5)) (Db.idle [⟨"A", 100⟩]) "A" "B" 40
      = (⟨[⟨"A", 100⟩], some [⟨"A", 60⟩]⟩, Reply.threw) ∧
    handleBalanceCommand noFault true false ⟨[⟨"A", 100⟩], some [⟨"A", 60⟩]⟩ "A"
      = (⟨[⟨"A", 100⟩], some [⟨"A", 60⟩]⟩, BalanceReply.balance 60) ∧
    handlePayCommandFull noFault ⟨[⟨"A", 100⟩], some [⟨"A", 60⟩]⟩ "A" "B" 100
      = (Db.idle [⟨"A", 60⟩], Reply.insufficientFunds) ∧
    handlePayCommandFull (fun k => decide (k = 4)) (Db.idle [⟨"A", 100⟩]) "A" "B" 40
      = (Db.idle [⟨"A", 100⟩], Reply.paymentError) := by
  refine ⟨by decide, by decide, by decide, by decide, by decide, by decide, by decide,
    by decide⟩

/-- C4. For a payment between different accounts of an amount > 0: when no database call
throws, the handler answers 'Insufficient funds.' exactly when the sender's balance (0
when the sender has no row) is below the amount; and under every fault schedule that
answer is given only then, and it leaves the connection and the table unchanged (neither
the debit nor the credit is applied). -/
theorem pay_insufficient_iff (s : Store) (a b : String) (amt : Int)
    (hab : a ≠ b) (hpos : 0 < amt) :
    ((handlePayCommand noFault (Db.idle s) a b amt).2 = Reply.insufficientFunds
      ↔ balanceOf s a < amt) ∧
    (balanceOf s a < amt → (handlePayCommand noFault (Db.idle s) a b amt).1 = Db.idle s) ∧
    ∀ fault : Nat → Bool,
      (handlePayCommand fault (Db.idle s) a b amt).2 = Reply.insufficientFunds →
        balanceOf s a < amt ∧ (handlePayCommand fault (Db.idle s) a b amt).1 = Db.idle s := by
  have hne : b ≠ a := Ne.symm hab
  refine ⟨?_, ?_, ?_⟩
  · rw [handlePayCommand_idle noFault s a b amt hne hpos]
    by_cases hb : balanceOf s a < amt <;> simp [noFault, hb]
  · intro hb
    rw [handlePayCommand_idle noFault s a b amt hne hpos]
    simp [noFault, hb]
  · intro fault
    rw [handlePayCommand_idle fault s a b amt hne hpos]
    split_ifs with h1 h2 h3 <;> intro h
    · cases h
    · exact ⟨h2, rfl⟩
    · cases h
    · cases h

/-- Witness of `pay_insufficient_iff`: A holds 60 and tries to pay 100. -/
theorem pay_insufficient_iff_witness :
    ((handlePayCommand noFault (Db.idle [⟨"A", 60⟩, ⟨"B", 40⟩]) "A" "B" 100).2
        = Reply.insufficientFunds
      ↔ balanceOf [⟨"A", 60⟩, ⟨"B", 40⟩] "A" < 100) ∧
    (balanceOf [⟨"A", 60⟩, ⟨"B", 40⟩] "A" < 100 →
      (handlePayCommand noFault (Db.idle [⟨"A", 60⟩, ⟨"B", 40⟩]) "A" "B" 100).1
        = Db.idle [⟨"A", 60⟩, ⟨"B", 40⟩]) ∧
    ∀ fault : Nat → Bool,
      (handlePayCommand fault (Db.idle [⟨"A", 60⟩, ⟨"B", 40⟩]) "A" "B" 100).2
          = Reply.insufficientFunds →
        balanceOf [⟨"A", 60⟩, ⟨"B", 40⟩] "A" < 100 ∧
        (handlePayCommand fault (Db.idle [⟨"A", 60⟩, ⟨"B", 40⟩]) "A" "B" 100).1
          = Db.idle [⟨"A", 60⟩, ⟨"B", 40⟩] :=
  pay_insufficient_iff [⟨"A", 60⟩, ⟨"B", 40⟩] "A" "B" 100 (by decide) (by decide)

/-- C5. A payment to oneself is answered 'You cannot pay yourself.' whatever the amount
(positive, zero or negative), the state of the connection and the fault schedule, and
the connection and the table are left untouched. -/
theorem pay_self_rejected (fault : Nat → Bool) (db : Db) (a : String) (amt : Int) :
    handlePayCommand fault db a a amt = (db, Reply.cannotPaySelf) := by
  simp [handlePayCommand]

/-- C6, as stated, fails: a payment to oneself of the amount 0 is not answered 'Amount
must be positive.', because the check for a payment to oneself comes first. -/
theorem pay_nonpositive_self_not_invalidAmount :
    (0 : Int) ≤ 0 ∧
    (handlePayCommand noFault (Db.idle [⟨"a", 5⟩]) "a" "a" 0).2 ≠ Reply.amountMustBePositive ∧
    (handlePayCommand noFault (Db.idle [⟨"a", 5⟩]) "a" "a" 0).2 = Reply.cannotPaySelf := by
  decide

/-- C6, amended. A payment of an amount ≤ 0 is refused without touching the connection or
the table: with 'Amount must be positive.' when sender and target differ, and with 'You
cannot pay yourself.' when they are the same, that check being the first one applied. -/
theorem pay_nonpositive_rejected (fault : Nat → Bool) (db : Db) (user target : String)
    (amount : Int) (hamt : amount ≤ 0) :
    handlePayCommand fault db user target amount
      = (db, if target = user then Reply.cannotPaySelf else Reply.amountMustBePositive) := by
  by_cases h : target = user <;> simp [handlePayCommand, h, hamt]

/-- Witness of `pay_nonpositive_rejected`: A tries to pay -5 to B. -/
theorem pay_nonpositive_rejected_witness :
    (-5 : Int) ≤ 0 ∧
    handlePayCommand noFault (Db.idle [⟨"A", 60⟩]) "A" "B" (-5)
      = (Db.idle [⟨"A", 60⟩],
          if "B" = "A" then Reply.cannotPaySelf else Reply.amountMustBePositive) :=
  ⟨by decide, pay_nonpositive_rejected noFault (Db.idle [⟨"A", 60⟩]) "A" "B" (-5) (by decide)⟩

/-! ### The `/ecoadmin` handler -/

theorem handleEcoAdminCommand_give_idle (fault : Nat → Bool) (s : Store) (target : String)
    (amount : Int) :
    handleEcoAdminCommand fault true (Db.idle s) "give" target amount =
      if fault 0 then (Db.idle s, Reply.adminError)
      else (Db.idle (insertOnDuplicateAdd target amount s), Reply.added) := by
  unfold handleEcoAdminCommand permissionsHasADMINISTRATOR ecoAdminBody attempt
  cases h0 : fault 0 <;>
    simp [bind, Except.bind, pure, Except.pure, Db.idle, Db.write]

theorem handleEcoAdminCommand_take_idle (fault : Nat → Bool) (s : Store) (target : String)
    (amount : Int) :
    handleEcoAdminCommand fault true (Db.idle s) "take" target amount =
      if fault 0 then (Db.idle s, Reply.adminError)
      else if balanceOf s target < amount then (Db.idle s, Reply.notEnoughFunds)
      else if fault 1 then (Db.idle s, Reply.adminError)
      else (Db.idle (updateBalanceSub amount target s), Reply.removed) := by
  unfold handleEcoAdminCommand permissionsHasADMINISTRATOR ecoAdminBody attempt balanceOf
  cases h0 : fault 0 <;> cases h1 : fault 1 <;>
    by_cases hb : firstBalanceOrZero (selectBalance s target) < amount <;>
    simp [hb, bind, Except.bind, pure, Except.pure, Db.idle, Db.write, Db.current]

theorem nonNegative_paidStore (s : Store) (user target : String) (amount : Int)
    (hne : target ≠ user) (hpos : 0 < amount) (hbal : amount ≤ balanceOf s user)
    (hs : NonNegative s) : NonNegative (paidStore s user target amount) := by
  intro u
  by_cases hu : u = user
  · subst hu
    rw [balanceOf_paidStore_sender s u target amount hne hpos hbal]
    exact roundDouble_nonneg _ (sub_nonneg.mpr hbal)
  · by_cases ht : u = target
    · subst ht
      rw [balanceOf_paidStore_target s user u amount hne]
      split
      · exact roundDouble_nonneg _ (add_nonneg (hs u) (le_of_lt hpos))
      · exact le_of_lt hpos
    · unfold paidStore
      rw [balanceOf_insertOnDuplicateAdd_other _ target u amount ht,
        balanceOf_updateBalanceSub_other _ user u amount hu]
      exact hs u

theorem nonNegative_updateBalanceSub (s : Store) (target : String) (amount : Int)
    (hbal : amount ≤ balanceOf s target) (hs : NonNegative s) :
    NonNegative (updateBalanceSub amount target s) := by
  intro u
  by_cases hu : u = target
  · subst hu
    rw [balanceOf_updateBalanceSub_self]
    split
    · exact roundDouble_nonneg _ (sub_nonneg.mpr hbal)
    · exact le_refl 0
  · rw [balanceOf_updateBalanceSub_other _ target u amount hu]
    exact hs u

theorem nonNegative_insertOnDuplicateAdd (s : Store) (target : String) (amount : Int)
    (hamt : 0 ≤ amount) (hs : NonNegative s) :
    NonNegative (insertOnDuplicateAdd target amount s) := by
  intro u
  by_cases hu : u = target
  · subst hu
    rw [balanceOf_insertOnDuplicateAdd_self]
    split
    · exact roundDouble_nonneg _ (add_nonneg (hs u) hamt)
    · exact hamt
  · rw [balanceOf_insertOnDuplicateAdd_other _ target u amount hu]
    exact hs u

/-- One call that is not a `give` of a negative amount keeps the connection without an
open transaction and keeps every balance at 0 or above. -/
theorem LedgerCall.run_nonNegative (c : LedgerCall) (s : Store) (hc : c.givesNoNegative)
    (hs : NonNegative s) : ∃ s', c.run (Db.idle s) = Db.idle s' ∧ NonNegative s' := by
  cases c with
  | pay fault user target amount =>
    by_cases hne : target = user
    · exact ⟨s, by simp [LedgerCall.run, handlePayCommand, hne], hs⟩
    · by_cases hpos : amount ≤ 0
      · exact ⟨s, by simp [LedgerCall.run, handlePayCommand, hne, hpos], hs⟩
      · have hp : 0 < amount := not_le.mp hpos
        simp only [LedgerCall.run]
        rw [handlePayCommand_idle fault s user target amount hne hp]
        split_ifs with h1 h2 h3
        · exact ⟨s, rfl, hs⟩
        · exact ⟨s, rfl, hs⟩
        · exact ⟨s, rfl, hs⟩
        · exact ⟨_, rfl, nonNegative_paidStore s user target amount hne hp (not_lt.mp h2) hs⟩
  | give fault target amount =>
    simp only [LedgerCall.run]
    rw [handleEcoAdminCommand_give_idle]
    split_ifs
    · exact ⟨s, rfl, hs⟩
    · exact ⟨_, rfl, nonNegative_insertOnDuplicateAdd s target amount hc hs⟩
  | take fault target amount =>
    simp only [LedgerCall.run]
    rw [handleEcoAdminCommand_take_idle]
    split_ifs with h1 h2 h3
    · exact ⟨s, rfl, hs⟩
    · exact ⟨s, rfl, hs⟩
    · exact ⟨s, rfl, hs⟩
    · exact ⟨_, rfl, nonNegative_updateBalanceSub s target amount (not_lt.mp h2) hs⟩

/-- Payments, `take` calls and `give` calls of amounts ≥ 0, with any other arguments and
any fault schedules, keep every balance at 0 or above. -/
theorem runCalls_nonNegative (calls : List LedgerCall) (s : Store)
    (hc : ∀ c ∈ calls, c.givesNoNegative) (hs : NonNegative s) :
    ∃ s', runCalls calls (Db.idle s) = Db.idle s' ∧ NonNegative s' := by
  induction calls generalizing s with
  | nil => exact ⟨s, rfl, hs⟩
  | cons c cs ih =>
    obtain ⟨s1, h1, hs1⟩ := c.run_nonNegative s (hc c (List.mem_cons_self c cs)) hs
    obtain ⟨s2, h2, hs2⟩ := ih s1 (fun d hd => hc d (List.mem_cons_of_mem c hd)) hs1
    refine ⟨s2, ?_, hs2⟩
    show runCalls cs (c.run (Db.idle s)) = Db.idle s2
    rw [h1, h2]

/-- C3, the code at the failing input: in the table that holds only `u` with balance 10
every balance is ≥ 0; after the single call `/ecoadmin give u -50`, which the handler
answers with 'Added ...', the balance of `u` is -40. -/
theorem give_negative_breaks_nonNegative :
    NonNegative [⟨"u", 10⟩] ∧
    runCalls [LedgerCall.give noFault "u" (-50)] (Db.idle [⟨"u", 10⟩])
      = Db.idle [⟨"u", -40⟩] ∧
    balanceOf (runCalls [LedgerCall.give noFault "u" (-50)] (Db.idle [⟨"u", 10⟩])).committed "u"
      < 0 ∧
    ¬ NonNegative
      (runCalls [LedgerCall.give noFault "u" (-50)] (Db.idle [⟨"u", 10⟩])).committed := by
  have hrun : runCalls [LedgerCall.give noFault "u" (-50)] (Db.idle [⟨"u", 10⟩])
      = Db.idle [⟨"u", -40⟩] := by decide
  refine ⟨?_, hrun, ?_, ?_⟩
  · intro v
    rw [balanceOf_cons, balanceOf_nil]
    split <;> decide
  · rw [hrun]; decide
  · rw [hrun]
    intro h
    exact absurd (h "u") (by decide)

/-- C7, the code at failing inputs: `/ecoadmin` validates no amount.  `give u -50` is
answered 'Added ...' and takes the balance of `u` from 10 to -40; `take u -5` is answered
'Removed ...' and takes it from 10 to 15; `give v 0` for an unknown `v` is answered
'Added ...' and creates the account `v`. -/
theorem ecoadmin_accepts_nonpositive_amount :
    handleEcoAdminCommand noFault true (Db.idle [⟨"u", 10⟩]) "give" "u" (-50)
      = (Db.idle [⟨"u", -40⟩], Reply.added) ∧
    handleEcoAdminCommand noFault true (Db.idle [⟨"u", 10⟩]) "take" "u" (-5)
      = (Db.idle [⟨"u", 15⟩], Reply.removed) ∧
    handleEcoAdminCommand noFault true (Db.idle [⟨"u", 10⟩]) "give" "v" 0
      = (Db.idle [⟨"u", 10⟩, ⟨"v", 0⟩], Reply.added) := by
  decide

/-- C8, as stated, fails: balances and amounts are doubles.  The account A holds 2^53
(quantum 1); `give A 1` is answered 'Added ...' and the balance of A is still 2^53, not
2^53 + 1: the credit of an amount > 0 left the balance as it was.  In quanta of 2^-55,
0.1 given to an account that holds 0.7 leaves it one quantum below the old balance plus
the amount. -/
theorem give_rounding_loses_amount :
    (roundDouble 9007199254740992 = 9007199254740992 ∧ roundDouble 1 = 1 ∧ (0 : Int) < 1) ∧
    handleEcoAdminCommand noFault true (Db.idle [⟨"A", 9007199254740992⟩]) "give" "A" 1
      = (Db.idle [⟨"A", 9007199254740992⟩], Reply.added) ∧
    balanceOf (handleEcoAdminCommand noFault true (Db.idle [⟨"A", 9007199254740992⟩])
        "give" "A" 1).1.committed "A"
      ≠ balanceOf [⟨"A", 9007199254740992⟩] "A" + 1 ∧
    balanceOf (handleEcoAdminCommand noFault true (Db.idle [⟨"A", 9007199254740992⟩])
        "give" "A" 1).1.committed "A"
      = balanceOf [⟨"A", 9007199254740992⟩] "A" ∧
    (roundDouble 25220157913274776 = 25220157913274776 ∧
      roundDouble 3602879701896397 = 3602879701896397) ∧
    handleEcoAdminCommand noFault true (Db.idle [⟨"A", 25220157913274776⟩]) "give" "A"
        3602879701896397
      = (Db.idle [⟨"A", 28823037615171172⟩], Reply.added) ∧
    (28823037615171172 : Int) ≠ 25220157913274776 + 3602879701896397 := by
  refine ⟨by decide, by decide, by decide, by decide, by decide, by decide, by decide⟩

/-- C8, amended. `/ecoadmin give` of an amount > 0, when no database call throws, is
answered 'Added ...' whatever the table holds (no balance is compared with the amount),
leaves no transaction open, and afterwards the target has a row; its balance is the
double nearest to its previous balance plus the amount, and for a target without a row
it is the amount itself.  When the exact sum is a double, as it is for values of fewer
than 2^53 quanta, the new balance is the previous balance plus the amount. -/
theorem give_adds_rounded (s : Store) (target : String) (amount : Int) (hpos : 0 < amount) :
    (handleEcoAdminCommand noFault true (Db.idle s) "give" target amount).2 = Reply.added ∧
    (handleEcoAdminCommand noFault true (Db.idle s) "give" target amount).1.tx = none ∧
    balanceOf (handleEcoAdminCommand noFault true (Db.idle s) "give" target amount).1.committed
      target
      = (if hasAccount s target then roundDouble (balanceOf s target + amount) else amount) ∧
    hasAccount (handleEcoAdminCommand noFault true (Db.idle s) "give" target amount).1.committed
      target = true ∧
    (hasAccount s target = false →
      balanceOf (handleEcoAdminCommand noFault true (Db.idle s) "give" target amount).1.committed
        target = amount) ∧
    (roundDouble (balanceOf s target + amount) = balanceOf s target + amount →
      balanceOf (handleEcoAdminCommand noFault true (Db.idle s) "give" target amount).1.committed
        target = balanceOf s target + amount) := by
  have _ := hpos
  have hrun : handleEcoAdminCommand noFault true (Db.idle s) "give" target amount
      = (Db.idle (insertOnDuplicateAdd target amount s), Reply.added) := by
    rw [handleEcoAdminCommand_give_idle]
    simp [noFault]
  rw [hrun]
  have hb := balanceOf_insertOnDuplicateAdd_self s target amount
  refine ⟨rfl, rfl, hb, hasAccount_insertOnDuplicateAdd_self s target amount, ?_, ?_⟩
  · intro h
    show balanceOf (insertOnDuplicateAdd target amount s) target = amount
    rw [hb, h]
    simp
  · intro hr
    show balanceOf (insertOnDuplicateAdd target amount s) target = balanceOf s target + amount
    rw [hb]
    by_cases h : hasAccount s target = true
    · rw [if_pos h, hr]
    · simp only [Bool.not_eq_true] at h
      rw [h, balanceOf_of_not_hasAccount s target h]
      simp

/-- Witness of `give_adds_rounded`: 25 given to an id the table has never seen. -/
theorem give_adds_rounded_witness :
    (0 : Int) < 25 ∧
    ((handleEcoAdminCommand noFault true (Db.idle [⟨"A", 60⟩]) "give" "unknownId" 25).2 = Reply.added ∧
    (handleEcoAdminCommand noFault true (Db.idle [⟨"A", 60⟩]) "give" "unknownId" 25).1.tx = none ∧
    balanceOf (handleEcoAdminCommand noFault true (Db.idle [⟨"A", 60⟩]) "give" "unknownId" 25).1.committed "unknownId"
      = (if hasAccount [⟨"A", 60⟩] "unknownId" then roundDouble (balanceOf [⟨"A", 60⟩] "unknownId" + 25)
          else 25) ∧
    hasAccount (handleEcoAdminCommand noFault true (Db.idle [⟨"A", 60⟩]) "give" "unknownId" 25).1.committed "unknownId" = true ∧
    (hasAccount [⟨"A", 60⟩] "unknownId" = false →
      balanceOf (handleEcoAdminCommand noFault true (Db.idle [⟨"A", 60⟩]) "give" "unknownId" 25).1.committed "unknownId" = 25) ∧
    (roundDouble (balanceOf [⟨"A", 60⟩] "unknownId" + 25) = balanceOf [⟨"A", 60⟩] "unknownId" + 25 →
      balanceOf (handleEcoAdminCommand noFault true (Db.idle [⟨"A", 60⟩]) "give" "unknownId" 25).1.committed "unknownId" = balanceOf [⟨"A", 60⟩] "unknownId" + 25)) :=
  ⟨by decide, give_adds_rounded [⟨"A", 60⟩] "unknownId" 25 (by decide)⟩

/-- C9. When the target's balance (0 when it has no row) is below the amount,
`/ecoadmin take` is answered '... does not have enough funds.' if no database call
throws, and under every fault schedule the connection and the table, hence every
balance, are left unchanged. -/
theorem take_insufficient_unchanged (s : Store) (target : String) (amount : Int)
    (hlt : balanceOf s target < amount) :
    handleEcoAdminCommand noFault true (Db.idle s) "take" target amount
      = (Db.idle s, Reply.notEnoughFunds) ∧
    ∀ fault : Nat → Bool,
      (handleEcoAdminCommand fault true (Db.idle s) "take" target amount).1 = Db.idle s ∧
      ∀ u : String,
        balanceOf (handleEcoAdminCommand fault true (Db.idle s) "take" target amount).1.committed
          u = balanceOf s u := by
  refine ⟨?_, ?_⟩
  · rw [handleEcoAdminCommand_take_idle]
    simp [noFault, hlt]
  · intro fault
    have h : (handleEcoAdminCommand fault true (Db.idle s) "take" target amount).1
        = Db.idle s := by
      rw [handleEcoAdminCommand_take_idle]
      split_ifs <;> rfl
    rw [h]
    exact ⟨rfl, fun _ => rfl⟩

/-- Witness of `take_insufficient_unchanged`: 100 taken from an account that holds 60. -/
theorem take_insufficient_unchanged_witness :
    balanceOf [⟨"A", 60⟩, ⟨"B", 40⟩] "A" < 100 ∧
    (handleEcoAdminCommand noFault true (Db.idle [⟨"A", 60⟩, ⟨"B", 40⟩]) "take" "A" 100
      = (Db.idle [⟨"A", 60⟩, ⟨"B", 40⟩], Reply.notEnoughFunds) ∧
    ∀ fault : Nat → Bool,
      (handleEcoAdminCommand fault true (Db.idle [⟨"A", 60⟩, ⟨"B", 40⟩]) "take" "A" 100).1
        = Db.idle [⟨"A", 60⟩, ⟨"B", 40⟩] ∧
      ∀ u : String,
        balanceOf
          (handleEcoAdminCommand fault true (Db.idle [⟨"A", 60⟩, ⟨"B", 40⟩])
            "take" "A" 100).1.committed u
          = balanceOf [⟨"A", 60⟩, ⟨"B", 40⟩] u) :=
  ⟨by decide, take_insufficient_unchanged [⟨"A", 60⟩, ⟨"B", 40⟩] "A" 100 (by decide)⟩

/-- C10, as stated, fails: balances and amounts are doubles.  In quanta of 1/2, the
account T holds 2^53 (2^54 quanta) and 0.5 (one quantum) is taken: the call is answered
'Removed ...' and the balance of T is still 2^53, not 2^53 - 0.5.  With quantum 1, 1
taken from an account that holds 2^53 + 2 leaves 2^53, not 2^53 + 1. -/
theorem take_rounding_keeps_balance :
    (roundDouble 18014398509481984 = 18014398509481984 ∧ roundDouble 1 = 1 ∧
      hasAccount [⟨"T", 18014398509481984⟩] "T" = true ∧ (0 : Int) < 1 ∧
      1 ≤ balanceOf [⟨"T", 18014398509481984⟩] "T") ∧
    handleEcoAdminCommand noFault true (Db.idle [⟨"T", 18014398509481984⟩]) "take" "T" 1
      = (Db.idle [⟨"T", 18014398509481984⟩], Reply.removed) ∧
    balanceOf (handleEcoAdminCommand noFault true (Db.idle [⟨"T", 18014398509481984⟩])
        "take" "T" 1).1.committed "T"
      ≠ balanceOf [⟨"T", 18014398509481984⟩] "T" - 1 ∧
    roundDouble 9007199254740994 = 9007199254740994 ∧
    handleEcoAdminCommand noFault true (Db.idle [⟨"T", 9007199254740994⟩]) "take" "T" 1
      = (Db.idle [⟨"T", 9007199254740992⟩], Reply.removed) ∧
    (9007199254740992 : Int) ≠ 9007199254740994 - 1 := by
  refine ⟨by decide, by decide, by decide, by decide, by decide, by decide⟩

/-- C10, amended. For a target that has a row and an amount with 0 < amount ≤ balance,
`/ecoadmin take`, when no database call throws, is answered 'Removed ...', leaves no
transaction open, and the target's new balance is the double nearest to its old balance
minus the amount, which is ≥ 0.  When the exact difference is a double, as it is for
values of fewer than 2^53 quanta, the new balance is the old balance minus the amount. -/
theorem take_subtracts_rounded (s : Store) (target : String) (amount : Int)
    (hex : hasAccount s target = true) (hpos : 0 < amount)
    (hle : amount ≤ balanceOf s target) :
    (handleEcoAdminCommand noFault true (Db.idle s) "take" target amount).2 = Reply.removed ∧
    (handleEcoAdminCommand noFault true (Db.idle s) "take" target amount).1.tx = none ∧
    balanceOf (handleEcoAdminCommand noFault true (Db.idle s) "take" target amount).1.committed
      target = roundDouble (balanceOf s target - amount) ∧
    0 ≤ balanceOf
      (handleEcoAdminCommand noFault true (Db.idle s) "take" target amount).1.committed
      target ∧
    (roundDouble (balanceOf s target - amount) = balanceOf s target - amount →
      balanceOf (handleEcoAdminCommand noFault true (Db.idle s) "take" target amount).1.committed
        target = balanceOf s target - amount) := by
  have _ := hpos
  have hnb : ¬ balanceOf s target < amount := not_lt.mpr hle
  have hbal : balanceOf (updateBalanceSub amount target s) target
      = roundDouble (balanceOf s target - amount) := by
    rw [balanceOf_updateBalanceSub_self, if_pos hex]
  have hrun : handleEcoAdminCommand noFault true (Db.idle s) "take" target amount
      = (Db.idle (updateBalanceSub amount target s), Reply.removed) := by
    rw [handleEcoAdminCommand_take_idle]
    simp [noFault, hnb]
  rw [hrun]
  refine ⟨rfl, rfl, hbal, ?_, ?_⟩
  · show 0 ≤ balanceOf (updateBalanceSub amount target s) target
    rw [hbal]
    exact roundDouble_nonneg _ (sub_nonneg.mpr hle)
  · intro hr
    show balanceOf (updateBalanceSub amount target s) target = balanceOf s target - amount
    rw [hbal, hr]

/-- Witness of `take_subtracts_rounded`: 25 taken from an account that holds 65. -/
theorem take_subtracts_rounded_witness :
    (hasAccount [⟨"A", 60⟩, ⟨"B", 65⟩] "B" = true ∧ (0 : Int) < 25 ∧
      25 ≤ balanceOf [⟨"A", 60⟩, ⟨"B", 65⟩] "B") ∧
    ((handleEcoAdminCommand noFault true (Db.idle [⟨"A", 60⟩, ⟨"B", 65⟩]) "take" "B" 25).2 = Reply.removed ∧
    (handleEcoAdminCommand noFault true (Db.idle [⟨"A", 60⟩, ⟨"B", 65⟩]) "take" "B" 25).1.tx = none ∧
    balanceOf (handleEcoAdminCommand noFault true (Db.idle [⟨"A", 60⟩, ⟨"B", 65⟩]) "take" "B" 25).1.committed "B"
      = roundDouble (balanceOf [⟨"A", 60⟩, ⟨"B", 65⟩] "B" - 25) ∧
    0 ≤ balanceOf (handleEcoAdminCommand noFault true (Db.idle [⟨"A", 60⟩, ⟨"B", 65⟩]) "take" "B" 25).1.committed "B" ∧
    (roundDouble (balanceOf [⟨"A", 60⟩, ⟨"B", 65⟩] "B" - 25) = balanceOf [⟨"A", 60⟩, ⟨"B", 65⟩] "B" - 25 →
      balanceOf (handleEcoAdminCommand noFault true (Db.idle [⟨"A", 60⟩, ⟨"B", 65⟩]) "take" "B" 25).1.committed "B"
        = balanceOf [⟨"A", 60⟩, ⟨"B", 65⟩] "B" - 25)) :=
  ⟨by decide,
    take_subtracts_rounded [⟨"A", 60⟩, ⟨"B", 65⟩] "B" 25 (by decide) (by decide) (by decide)⟩

/-! ### The `/balance` and `/baltop` handlers -/

theorem accountIds_insertOnDuplicateAdd (s : Store) (u : String) (amount : Int) :
    accountIds (insertOnDuplicateAdd u amount s)
      = if hasAccount s u then accountIds s else accountIds s ++ [u] := by
  unfold insertOnDuplicateAdd
  by_cases h : hasAccount s u = true
  · have h' : (s.any fun r => decide (r.uuid = u)) = true := h
    rw [if_pos h', if_pos h]
    clear h h'
    induction s with
    | nil => rfl
    | cons r s ih =>
      simp only [accountIds, List.map_cons] at ih ⊢
      rw [ih]
      by_cases hr : r.uuid = u <;> simp [hr]
  · have h' : ¬ (s.any fun r => decide (r.uuid = u)) = true := h
    rw [if_neg h', if_neg h]
    simp [accountIds]

/-- The writing statements keep the key `uuid` unique. -/
theorem uniqueKeys_updateBalanceSub (s : Store) (u : String) (amount : Int)
    (hk : UniqueKeys s) : UniqueKeys (updateBalanceSub amount u s) := by
  unfold UniqueKeys
  rw [accountIds_updateBalanceSub]
  exact hk

theorem uniqueKeys_insertOnDuplicateAdd (s : Store) (u : String) (amount : Int)
    (hk : UniqueKeys s) : UniqueKeys (insertOnDuplicateAdd u amount s) := by
  unfold UniqueKeys
  rw [accountIds_insertOnDuplicateAdd]
  by_cases h : hasAccount s u = true
  · rw [if_pos h]; exact hk
  · rw [if_neg h]
    have hn : u ∉ accountIds s := fun hm => h ((hasAccount_eq_mem_accountIds s u).mpr hm)
    exact List.Nodup.append hk (List.nodup_singleton u)
      (by
        intro x hx hx'
        rw [List.mem_singleton] at hx'
        exact hn (hx' ▸ hx))

/-- Under the unique key, the balance read for the `uuid` of a stored row is the balance
of that row. -/
theorem balanceOf_of_mem (s : Store) (r : Row) (hk : UniqueKeys s) (hr : r ∈ s) :
    balanceOf s r.uuid = r.balance := by
  induction s with
  | nil => cases hr
  | cons q s ih =>
    have hk' : q.uuid ∉ accountIds s ∧ (accountIds s).Nodup := List.nodup_cons.mp hk
    rw [balanceOf_cons]
    rcases List.mem_cons.mp hr with h | h
    · subst h; simp
    · have hne : ¬ q.uuid = r.uuid := by
        intro e
        apply hk'.1
        rw [e]
        exact List.mem_map_of_mem (fun r => r.uuid) h
      rw [if_neg hne]
      exact ih hk'.2 h

theorem handleBalanceCommand_db (fault : Nat → Bool) (targetIsUser isAdmin : Bool) (db : Db)
    (target : String) : (handleBalanceCommand fault targetIsUser isAdmin db target).1 = db := by
  unfold handleBalanceCommand balanceRefused permissionsHasADMINISTRATOR balanceLookup attempt
  cases targetIsUser <;> cases isAdmin <;> cases h0 : fault 0 <;>
    simp [bind, Except.bind, pure, Except.pure]

theorem handleBalanceCommand_permitted (targetIsUser isAdmin : Bool) (s : Store)
    (target : String) (hperm : (targetIsUser || isAdmin) = true) :
    handleBalanceCommand noFault targetIsUser isAdmin (Db.idle s) target
      = (Db.idle s, BalanceReply.balance (balanceOf s target)) := by
  unfold handleBalanceCommand balanceRefused permissionsHasADMINISTRATOR balanceLookup attempt
  cases targetIsUser <;> cases isAdmin <;>
    simp_all [bind, Except.bind, pure, Except.pure, noFault, Db.idle, Db.current, balanceOf]

/-- C11. The lookup of `/balance` changes neither the connection nor the table, whatever
the arguments and the fault schedule.  When no database call throws and the caller may
look the account up (it is the caller's own, or the caller is an administrator), the
handler shows the balance of the stored row of that id, and shows 0, not an error, for
an id that has no row. -/
theorem balance_lookup_reads_stored (s : Store) (id : String) (hk : UniqueKeys s) :
    (∀ (fault : Nat → Bool) (targetIsUser isAdmin : Bool) (db : Db),
      (handleBalanceCommand fault targetIsUser isAdmin db id).1 = db) ∧
    (∀ targetIsUser isAdmin : Bool, (targetIsUser || isAdmin) = true →
      ∀ r ∈ s, r.uuid = id →
        handleBalanceCommand noFault targetIsUser isAdmin (Db.idle s) id
          = (Db.idle s, BalanceReply.balance r.balance)) ∧
    (∀ targetIsUser isAdmin : Bool, (targetIsUser || isAdmin) = true →
      hasAccount s id = false →
        handleBalanceCommand noFault targetIsUser isAdmin (Db.idle s) id
          = (Db.idle s, BalanceReply.balance 0)) := by
  refine ⟨fun fault t a db => handleBalanceCommand_db fault t a db id, ?_, ?_⟩
  · intro t a hperm r hr hid
    rw [handleBalanceCommand_permitted t a s id hperm, ← hid, balanceOf_of_mem s r hk hr]
  · intro t a hperm hno
    rw [handleBalanceCommand_permitted t a s id hperm, balanceOf_of_not_hasAccount s id hno]

/-- Witness of `balance_lookup_reads_stored`: the table A=60, B=40 and the id B. -/
theorem balance_lookup_reads_stored_witness :
    UniqueKeys [⟨"A", 60⟩, ⟨"B", 40⟩] ∧
    ((∀ (fault : Nat → Bool) (targetIsUser isAdmin : Bool) (db : Db),
      (handleBalanceCommand fault targetIsUser isAdmin db "B").1 = db) ∧
    (∀ targetIsUser isAdmin : Bool, (targetIsUser || isAdmin) = true →
      ∀ r ∈ ([⟨"A", 60⟩, ⟨"B", 40⟩] : Store), r.uuid = "B" →
        handleBalanceCommand noFault targetIsUser isAdmin (Db.idle [⟨"A", 60⟩, ⟨"B", 40⟩]) "B"
          = (Db.idle [⟨"A", 60⟩, ⟨"B", 40⟩], BalanceReply.balance r.balance)) ∧
    (∀ targetIsUser isAdmin : Bool, (targetIsUser || isAdmin) = true →
      hasAccount [⟨"A", 60⟩, ⟨"B", 40⟩] "B" = false →
        handleBalanceCommand noFault targetIsUser isAdmin (Db.idle [⟨"A", 60⟩, ⟨"B", 40⟩]) "B"
          = (Db.idle [⟨"A", 60⟩, ⟨"B", 40⟩], BalanceReply.balance 0))) :=
  ⟨by decide, balance_lookup_reads_stored [⟨"A", 60⟩, ⟨"B", 40⟩] "B" (by decide)⟩

theorem orderByBalanceDesc_perm (s : Store) : (orderByBalanceDesc s).Perm s :=
  List.perm_insertionSort balanceDesc s

theorem orderByBalanceDesc_pairwise (s : Store) :
    (orderByBalanceDesc s).Pairwise balanceDesc := by
  haveI : IsTotal Row balanceDesc := ⟨fun a b => le_total b.balance a.balance⟩
  haveI : IsTrans Row balanceDesc :=
    ⟨fun a b c hab hbc => le_trans (α := Int) hbc hab⟩
  exact List.sorted_insertionSort balanceDesc s

/-- The stable sort is an engine for `ORDER BY balance DESC`. -/
theorem orderByBalanceDesc_conforms : OrdersByBalanceDesc orderByBalanceDesc :=
  fun s => ⟨orderByBalanceDesc_perm s, orderByBalanceDesc_pairwise s⟩

/-- So is the stable sort of the rows read from the last to the first. -/
theorem orderByBalanceDesc_reverse_conforms :
    OrdersByBalanceDesc (fun s => orderByBalanceDesc s.reverse) :=
  fun s => ⟨(orderByBalanceDesc_perm s.reverse).trans (List.reverse_perm s),
    orderByBalanceDesc_pairwise s.reverse⟩

theorem selectTopBy_append_drop (order : Store → List Row) (n : Nat) (s : Store) :
    selectTopBy order n s ++ (order s).drop n = order s :=
  List.take_append_drop n (order s)

theorem selectTopBy_length (order : Store → List Row) (hord : OrdersByBalanceDesc order)
    (n : Nat) (s : Store) : (selectTopBy order n s).length = min n s.length := by
  unfold selectTopBy
  rw [List.length_take, (hord s).1.length_eq]

theorem mem_of_mem_selectTopBy (order : Store → List Row) (hord : OrdersByBalanceDesc order)
    (n : Nat) (s : Store) (r : Row) (h : r ∈ selectTopBy order n s) : r ∈ s :=
  (hord s).1.mem_iff.mp (List.mem_of_mem_take h)

theorem selectTopBy_uniqueKeys (order : Store → List Row) (hord : OrdersByBalanceDesc order)
    (n : Nat) (s : Store) (hk : UniqueKeys s) : UniqueKeys (selectTopBy order n s) := by
  unfold UniqueKeys accountIds at hk ⊢
  have hp : ((order s).map fun r => r.uuid).Nodup :=
    (((hord s).1).map fun r => r.uuid).nodup_iff.mpr hk
  exact List.Sublist.nodup (List.Sublist.map _ (List.take_sublist n _)) hp

theorem selectTopBy_pairwise (order : Store → List Row) (hord : OrdersByBalanceDesc order)
    (n : Nat) (s : Store) : (selectTopBy order n s).Pairwise balanceDesc :=
  List.Pairwise.sublist (List.take_sublist n _) (hord s).2

/-- A row that the `LIMIT` cut off has a balance no greater than any listed row. -/
theorem le_of_not_mem_selectTopBy (order : Store → List Row)
    (hord : OrdersByBalanceDesc order) (n : Nat) (s : Store) (r l : Row) (hr : r ∈ s)
    (hout : r ∉ selectTopBy order n s) (hl : l ∈ selectTopBy order n s) :
    r.balance ≤ l.balance := by
  have hsorted := (hord s).2
  rw [← selectTopBy_append_drop order n s, List.pairwise_append] at hsorted
  have hmem : r ∈ selectTopBy order n s ++ (order s).drop n := by
    rw [selectTopBy_append_drop]
    exact (hord s).1.mem_iff.mpr hr
  rcases List.mem_append.mp hmem with h | h
  · exact absurd h hout
  · exact hsorted.2.2 l hl r h

theorem topFieldsFrom_length (i : Nat) (rows : List Row) :
    (topFieldsFrom i rows).length = rows.length := by
  induction rows generalizing i with
  | nil => rfl
  | cons r rows ih => simp [topFieldsFrom, ih]

/-- The fields of the embed carry the rows in their order, each with its account and its
balance. -/
theorem topFieldsFrom_rows (i : Nat) (rows : List Row) :
    (topFieldsFrom i rows).map (fun f => (⟨f.uuid, f.balance⟩ : Row)) = rows := by
  induction rows generalizing i with
  | nil => rfl
  | cons r rows ih => simp [topFieldsFrom, ih]

/-- The fields of the embed are numbered `i + 1`, `i + 2`, and so on. -/
theorem topFieldsFrom_ranks (i : Nat) (rows : List Row) :
    (topFieldsFrom i rows).map (fun f => f.rank) = List.range' (i + 1) rows.length := by
  induction rows generalizing i with
  | nil => rfl
  | cons r rows ih => simp [topFieldsFrom, ih, List.range'_succ]

theorem handleBalanceTopCommandBy_noFault (order : Store → List Row) (db : Db) :
    handleBalanceTopCommandBy order noFault db
      = (db, TopReply.embed (topFieldsFrom 0 (selectTopBy order 10 db.current))) := by
  simp [handleBalanceTopCommandBy, balanceTopLookupBy, attempt, noFault, bind, Except.bind,
    pure, Except.pure]

/-- C12. On every engine that meets `ORDER BY balance DESC`, the rows of the statement
with `LIMIT n` over a table with unique keys: there are exactly `min n (number of rows)`
of them; each is a row of the table, so an existing account with its current balance; no
account is listed twice; the balances never increase along the list; every row of the
table that is not listed has a balance no greater than any listed row, the last one in
particular.  The `/baltop` handler, when no database call throws, leaves the connection
as it was and answers with the embed whose fields are these rows for `n = 10`: the
`k`-th field carries the rank `k`, the account and the balance of the `k`-th row, and
there are `min 10 (number of rows)` fields. -/
theorem selectTopBy_ranking (order : Store → List Row) (hord : OrdersByBalanceDesc order)
    (s : Store) (n : Nat) (hk : UniqueKeys s) :
    (selectTopBy order n s).length = min n s.length ∧
    (∀ r ∈ selectTopBy order n s, r ∈ s ∧ balanceOf s r.uuid = r.balance) ∧
    (accountIds (selectTopBy order n s)).Nodup ∧
    (selectTopBy order n s).Pairwise (fun a b => b.balance ≤ a.balance) ∧
    (∀ r ∈ s, r ∉ selectTopBy order n s → ∀ l ∈ selectTopBy order n s, r.balance ≤ l.balance) ∧
    (∀ r ∈ s, r ∉ selectTopBy order n s →
      ∀ l, (selectTopBy order n s).getLast? = some l → r.balance ≤ l.balance) ∧
    (∃ fields : List TopField,
      handleBalanceTopCommandBy order noFault (Db.idle s)
        = (Db.idle s, TopReply.embed fields) ∧
      fields.map (fun f => (⟨f.uuid, f.balance⟩ : Row)) = selectTopBy order 10 s ∧
      fields.map (fun f => f.rank) = List.range' 1 (min 10 s.length) ∧
      fields.length = min 10 s.length) := by
  refine ⟨selectTopBy_length order hord n s, ?_, selectTopBy_uniqueKeys order hord n s hk,
    selectTopBy_pairwise order hord n s, ?_, ?_, ?_⟩
  · intro r hr
    have hmem := mem_of_mem_selectTopBy order hord n s r hr
    exact ⟨hmem, balanceOf_of_mem s r hk hmem⟩
  · intro r hr hout l hl
    exact le_of_not_mem_selectTopBy order hord n s r l hr hout hl
  · intro r hr hout l hl
    exact le_of_not_mem_selectTopBy order hord n s r l hr hout
      (List.mem_of_getLast?_eq_some hl)
  · refine ⟨topFieldsFrom 0 (selectTopBy order 10 s),
      handleBalanceTopCommandBy_noFault order (Db.idle s), topFieldsFrom_rows 0 _, ?_, ?_⟩
    · rw [topFieldsFrom_ranks, selectTopBy_length order hord]
    · rw [topFieldsFrom_length, selectTopBy_length order hord]

/-- Witness of `selectTopBy_ranking`: the three richest of four accounts, on the stable
sort. -/
theorem selectTopBy_ranking_witness :
    UniqueKeys [⟨"A", 60⟩, ⟨"C", 5⟩, ⟨"B", 65⟩, ⟨"D", 5⟩] ∧
    selectTopBy orderByBalanceDesc 3 [⟨"A", 60⟩, ⟨"C", 5⟩, ⟨"B", 65⟩, ⟨"D", 5⟩] = [⟨"B", 65⟩, ⟨"A", 60⟩, ⟨"C", 5⟩] ∧
    handleBalanceTopCommandBy orderByBalanceDesc noFault (Db.idle [⟨"A", 60⟩, ⟨"C", 5⟩, ⟨"B", 65⟩, ⟨"D", 5⟩])
      = (Db.idle [⟨"A", 60⟩, ⟨"C", 5⟩, ⟨"B", 65⟩, ⟨"D", 5⟩],
          TopReply.embed [⟨1, "B", 65⟩, ⟨2, "A", 60⟩, ⟨3, "C", 5⟩, ⟨4, "D", 5⟩]) ∧
    ((selectTopBy orderByBalanceDesc 3 [⟨"A", 60⟩, ⟨"C", 5⟩, ⟨"B", 65⟩, ⟨"D", 5⟩]).length = min 3 ([⟨"A", 60⟩, ⟨"C", 5⟩, ⟨"B", 65⟩, ⟨"D", 5⟩] : Store).length ∧
    (∀ r ∈ selectTopBy orderByBalanceDesc 3 [⟨"A", 60⟩, ⟨"C", 5⟩, ⟨"B", 65⟩, ⟨"D", 5⟩],
      r ∈ ([⟨"A", 60⟩, ⟨"C", 5⟩, ⟨"B", 65⟩, ⟨"D", 5⟩] : Store) ∧ balanceOf [⟨"A", 60⟩, ⟨"C", 5⟩, ⟨"B", 65⟩, ⟨"D", 5⟩] r.uuid = r.balance) ∧
    (accountIds (selectTopBy orderByBalanceDesc 3 [⟨"A", 60⟩, ⟨"C", 5⟩, ⟨"B", 65⟩, ⟨"D", 5⟩])).Nodup ∧
    (selectTopBy orderByBalanceDesc 3 [⟨"A", 60⟩, ⟨"C", 5⟩, ⟨"B", 65⟩, ⟨"D", 5⟩]).Pairwise (fun a b => b.balance ≤ a.balance) ∧
    (∀ r ∈ ([⟨"A", 60⟩, ⟨"C", 5⟩, ⟨"B", 65⟩, ⟨"D", 5⟩] : Store), r ∉ selectTopBy orderByBalanceDesc 3 [⟨"A", 60⟩, ⟨"C", 5⟩, ⟨"B", 65⟩, ⟨"D", 5⟩] →
      ∀ l ∈ selectTopBy orderByBalanceDesc 3 [⟨"A", 60⟩, ⟨"C", 5⟩, ⟨"B", 65⟩, ⟨"D", 5⟩], r.balance ≤ l.balance) ∧
    (∀ r ∈ ([⟨"A", 60⟩, ⟨"C", 5⟩, ⟨"B", 65⟩, ⟨"D", 5⟩] : Store), r ∉ selectTopBy orderByBalanceDesc 3 [⟨"A", 60⟩, ⟨"C", 5⟩, ⟨"B", 65⟩, ⟨"D", 5⟩] →
      ∀ l, (selectTopBy orderByBalanceDesc 3 [⟨"A", 60⟩, ⟨"C", 5⟩, ⟨"B", 65⟩, ⟨"D", 5⟩]).getLast? = some l →
        r.balance ≤ l.balance) ∧
    (∃ fields : List TopField,
      handleBalanceTopCommandBy orderByBalanceDesc noFault (Db.idle [⟨"A", 60⟩, ⟨"C", 5⟩, ⟨"B", 65⟩, ⟨"D", 5⟩])
        = (Db.idle [⟨"A", 60⟩, ⟨"C", 5⟩, ⟨"B", 65⟩, ⟨"D", 5⟩], TopReply.embed fields) ∧
      fields.map (fun f => (⟨f.uuid, f.balance⟩ : Row)) = selectTopBy orderByBalanceDesc 10 [⟨"A", 60⟩, ⟨"C", 5⟩, ⟨"B", 65⟩, ⟨"D", 5⟩] ∧
      fields.map (fun f => f.rank) = List.range' 1 (min 10 ([⟨"A", 60⟩, ⟨"C", 5⟩, ⟨"B", 65⟩, ⟨"D", 5⟩] : Store).length) ∧
      fields.length = min 10 ([⟨"A", 60⟩, ⟨"C", 5⟩, ⟨"B", 65⟩, ⟨"D", 5⟩] : Store).length)) :=
  ⟨by decide, by decide, by decide,
    selectTopBy_ranking orderByBalanceDesc orderByBalanceDesc_conforms [⟨"A", 60⟩, ⟨"C", 5⟩, ⟨"B", 65⟩, ⟨"D", 5⟩] 3 (by decide)⟩

/-- Rows sorted by `ORDER BY balance DESC` whose balances are pairwise different stand in
strictly decreasing order of balance. -/
theorem pairwise_balance_gt (l : List Row) (hs : l.Pairwise balanceDesc)
    (hd : (l.map fun r => r.balance).Nodup) :
    l.Pairwise (fun a b => b.balance < a.balance) := by
  have hne : l.Pairwise (fun a b => a.balance ≠ b.balance) := by
    have h := hd
    unfold List.Nodup at h
    rwa [List.pairwise_map] at h
  exact (hs.and hne).imp fun h => lt_of_le_of_ne h.1 (Ne.symm h.2)

/-- C13, as stated, fails: the statement sent by the handler has no second sort key, and
the source fixes no order among rows of equal balance.  The accounts `1` and `2` hold 5
each.  The stable sort that reads the table from the first row and the one that reads it
from the last row are both engines for `ORDER BY balance DESC`; on the same table they
return the two rows in opposite orders, so one of them lists the account `2` before the
account `1`, the smaller id, and `/baltop` shows them so: the listing is not a function
of the contents of the table. -/
theorem selectTopBy_tie_order_not_fixed :
    OrdersByBalanceDesc orderByBalanceDesc ∧
    OrdersByBalanceDesc (fun s => orderByBalanceDesc s.reverse) ∧
    UniqueKeys [⟨"1", 5⟩, ⟨"2", 5⟩] ∧
    "1" < "2" ∧
    selectTopBy orderByBalanceDesc 10 [⟨"1", 5⟩, ⟨"2", 5⟩] = [⟨"1", 5⟩, ⟨"2", 5⟩] ∧
    selectTopBy (fun s => orderByBalanceDesc s.reverse) 10 [⟨"1", 5⟩, ⟨"2", 5⟩]
      = [⟨"2", 5⟩, ⟨"1", 5⟩] ∧
    handleBalanceTopCommandBy (fun s => orderByBalanceDesc s.reverse) noFault
        (Db.idle [⟨"1", 5⟩, ⟨"2", 5⟩])
      = (Db.idle [⟨"1", 5⟩, ⟨"2", 5⟩], TopReply.embed [⟨1, "2", 5⟩, ⟨2, "1", 5⟩]) ∧
    selectTopBy orderByBalanceDesc 10 [⟨"2", 5⟩, ⟨"1", 5⟩] = [⟨"2", 5⟩, ⟨"1", 5⟩] := by
  refine ⟨orderByBalanceDesc_conforms, orderByBalanceDesc_reverse_conforms, by decide, ?_,
    by decide, by decide, by decide, by decide⟩
  rw [String.lt_iff_toList_lt]
  decide

/-- C13, amended. The listing is ordered by balance only; the order of accounts of equal
balance is left to the database server.  Where no two accounts of the table have the
same balance the listing is a function of the contents of the table: any two engines for
`ORDER BY balance DESC` return the same rows in the same order, also when the rows of
the table are stored in another order, and the balances decrease strictly along the
list. -/
theorem selectTopBy_deterministic_of_distinct (order1 order2 : Store → List Row)
    (h1 : OrdersByBalanceDesc order1) (h2 : OrdersByBalanceDesc order2) (s s' : Store)
    (hperm : s.Perm s') (hd : (s.map fun r => r.balance).Nodup) (n : Nat) :
    selectTopBy order1 n s = selectTopBy order2 n s' ∧
    handleBalanceTopCommandBy order1 noFault (Db.idle s)
      = (Db.idle s, (handleBalanceTopCommandBy order2 noFault (Db.idle s')).2) ∧
    (selectTopBy order1 n s).Pairwise (fun a b => b.balance < a.balance) := by
  haveI : IsAntisymm Row (fun a b => b.balance < a.balance) :=
    ⟨fun a b hab hba => absurd hab (not_lt.mpr (le_of_lt hba))⟩
  have hp1 : (order1 s).Perm s := (h1 s).1
  have hp2 : (order2 s').Perm s := (h2 s').1.trans hperm.symm
  have hd1 : ((order1 s).map fun r => r.balance).Nodup :=
    (hp1.map fun r => r.balance).nodup_iff.mpr hd
  have hd2 : ((order2 s').map fun r => r.balance).Nodup :=
    (hp2.map fun r => r.balance).nodup_iff.mpr hd
  have hs1 := pairwise_balance_gt (order1 s) (h1 s).2 hd1
  have hs2 := pairwise_balance_gt (order2 s') (h2 s').2 hd2
  have heq : order1 s = order2 s' :=
    List.eq_of_perm_of_sorted (hp1.trans hp2.symm) hs1 hs2
  refine ⟨?_, ?_, ?_⟩
  · unfold selectTopBy
    rw [heq]
  · rw [handleBalanceTopCommandBy_noFault, handleBalanceTopCommandBy_noFault]
    simp only [Db.idle, Db.current, Option.getD, selectTopBy]
    rw [heq]
  · exact List.Pairwise.sublist (List.take_sublist n _) hs1

/-- Witness of `selectTopBy_deterministic_of_distinct`: the two engines on a table of
three accounts, stored in two orders. -/
theorem selectTopBy_deterministic_of_distinct_witness :
    ([⟨"A", 60⟩, ⟨"C", 5⟩, ⟨"B", 65⟩] : Store).Perm [⟨"B", 65⟩, ⟨"A", 60⟩, ⟨"C", 5⟩] ∧
    (([⟨"A", 60⟩, ⟨"C", 5⟩, ⟨"B", 65⟩] : Store).map fun r => r.balance).Nodup ∧
    selectTopBy orderByBalanceDesc 2 [⟨"A", 60⟩, ⟨"C", 5⟩, ⟨"B", 65⟩] = [⟨"B", 65⟩, ⟨"A", 60⟩] ∧
    (selectTopBy orderByBalanceDesc 2 [⟨"A", 60⟩, ⟨"C", 5⟩, ⟨"B", 65⟩]
      = selectTopBy (fun s => orderByBalanceDesc s.reverse) 2
          [⟨"B", 65⟩, ⟨"A", 60⟩, ⟨"C", 5⟩] ∧
    handleBalanceTopCommandBy orderByBalanceDesc noFault
        (Db.idle [⟨"A", 60⟩, ⟨"C", 5⟩, ⟨"B", 65⟩])
      = (Db.idle [⟨"A", 60⟩, ⟨"C", 5⟩, ⟨"B", 65⟩],
          (handleBalanceTopCommandBy (fun s => orderByBalanceDesc s.reverse) noFault
            (Db.idle [⟨"B", 65⟩, ⟨"A", 60⟩, ⟨"C", 5⟩])).2) ∧
    (selectTopBy orderByBalanceDesc 2 [⟨"A", 60⟩, ⟨"C", 5⟩, ⟨"B", 65⟩]).Pairwise
      (fun a b => b.balance < a.balance)) :=
  ⟨by decide, by decide, by decide,
    selectTopBy_deterministic_of_distinct orderByBalanceDesc
      (fun s => orderByBalanceDesc s.reverse) orderByBalanceDesc_conforms
      orderByBalanceDesc_reverse_conforms [⟨"A", 60⟩, ⟨"C", 5⟩, ⟨"B", 65⟩]
      [⟨"B", 65⟩, ⟨"A", 60⟩, ⟨"C", 5⟩] (by decide) (by decide) 2⟩

/-- C14. The scenario of the specification, step by step, with no database call
throwing.  From A=100, B=0: A pays 40 to B, giving A=60, B=40; A then fails to pay 100
('Insufficient funds.') and the table stays A=60, B=40; `give B 25` makes B=65; the two
richest rows are then B with 65 and A with 60, and these are what `/baltop` shows. -/
theorem end_to_end_scenario :
    handlePayCommand noFault (Db.idle [⟨"A", 100⟩, ⟨"B", 0⟩]) "A" "B" 40
      = (Db.idle [⟨"A", 60⟩, ⟨"B", 40⟩], Reply.paymentSuccessful) ∧
    handlePayCommand noFault (Db.idle [⟨"A", 60⟩, ⟨"B", 40⟩]) "A" "B" 100
      = (Db.idle [⟨"A", 60⟩, ⟨"B", 40⟩], Reply.insufficientFunds) ∧
    handleEcoAdminCommand noFault true (Db.idle [⟨"A", 60⟩, ⟨"B", 40⟩]) "give" "B" 25
      = (Db.idle [⟨"A", 60⟩, ⟨"B", 65⟩], Reply.added) ∧
    selectTop 2 [⟨"A", 60⟩, ⟨"B", 65⟩] = [⟨"B", 65⟩, ⟨"A", 60⟩] ∧
    handleBalanceTopCommand noFault (Db.idle [⟨"A", 60⟩, ⟨"B", 65⟩])
      = (Db.idle [⟨"A", 60⟩, ⟨"B", 65⟩], TopReply.embed [⟨1, "B", 65⟩, ⟨2, "A", 60⟩]) := by
  decide

/-! ### Accounts are created by credits only -/

theorem hasAccount_insertOnDuplicateAdd (s : Store) (u id : String) (amount : Int) :
    hasAccount (insertOnDuplicateAdd u amount s) id = true
      ↔ hasAccount s id = true ∨ id = u := by
  rw [hasAccount_eq_mem_accountIds, hasAccount_eq_mem_accountIds,
    accountIds_insertOnDuplicateAdd]
  by_cases h : hasAccount s u = true
  · rw [if_pos h]
    constructor
    · exact fun hm => Or.inl hm
    · rintro (hm | rfl)
      · exact hm
      · exact (hasAccount_eq_mem_accountIds s id).mp h
  · rw [if_neg h]
    simp

theorem hasAccount_paidStore (s : Store) (user target id : String) (amount : Int) :
    hasAccount (paidStore s user target amount) id = true
      ↔ hasAccount s id = true ∨ id = target := by
  unfold paidStore
  rw [hasAccount_insertOnDuplicateAdd, hasAccount_updateBalanceSub]

theorem handleBalanceTopCommand_db (fault : Nat → Bool) (db : Db) :
    (handleBalanceTopCommand fault db).1 = db := by
  unfold handleBalanceTopCommand handleBalanceTopCommandBy balanceTopLookupBy attempt
  cases h0 : fault 0 <;> simp [bind, Except.bind, pure, Except.pure]

/-- What an operation does to the set of accounts: it leaves the connection without an
open transaction, and either keeps the accounts as they are or credits `t` and adds at
most the account `t`. -/
theorem LedgerOp.after_accounts (fault : Nat → Bool) (op : LedgerOp) (s : Store) :
    ∃ s', op.after fault (Db.idle s) = Db.idle s' ∧
      ((∀ id, hasAccount s' id = hasAccount s id) ∨
        ∃ t, op.credited fault (Db.idle s) = some t ∧
          ∀ id, hasAccount s' id = true ↔ hasAccount s id = true ∨ id = t) := by
  cases op with
  | transfer user target amount =>
    by_cases hne : target = user
    · exact ⟨s, by simp [LedgerOp.after, handlePayCommand, hne], Or.inl fun _ => rfl⟩
    · by_cases hpos : amount ≤ 0
      · exact ⟨s, by simp [LedgerOp.after, handlePayCommand, hne, hpos], Or.inl fun _ => rfl⟩
      · have hrun := handlePayCommand_idle fault s user target amount hne (not_le.mp hpos)
        simp only [LedgerOp.after, LedgerOp.credited]
        by_cases h1 : fault 0 = true ∨ fault 1 = true ∨ fault 2 = true
        · rw [if_pos h1] at hrun
          exact ⟨s, by rw [hrun], Or.inl fun _ => rfl⟩
        · rw [if_neg h1] at hrun
          by_cases h2 : EconomyCommands.balanceOf s user < amount
          · rw [if_pos h2] at hrun
            exact ⟨s, by rw [hrun], Or.inl fun _ => rfl⟩
          · rw [if_neg h2] at hrun
            by_cases h3 : fault 3 = true ∨ fault 4 = true
            · rw [if_pos h3] at hrun
              exact ⟨s, by rw [hrun], Or.inl fun _ => rfl⟩
            · rw [if_neg h3] at hrun
              rw [hrun]
              exact ⟨_, rfl, Or.inr ⟨target, by simp,
                fun id => hasAccount_paidStore s user target id amount⟩⟩
  | adminCredit target amount =>
    have hrun := handleEcoAdminCommand_give_idle fault s target amount
    simp only [LedgerOp.after, LedgerOp.credited]
    by_cases h1 : fault 0 = true
    · rw [if_pos h1] at hrun
      exact ⟨s, by rw [hrun], Or.inl fun _ => rfl⟩
    · rw [if_neg h1] at hrun
      rw [hrun]
      exact ⟨_, rfl, Or.inr ⟨target, by simp,
        fun id => hasAccount_insertOnDuplicateAdd s target id amount⟩⟩
  | adminDebit target amount =>
    simp only [LedgerOp.after]
    rw [handleEcoAdminCommand_take_idle]
    split_ifs with h1 h2 h3
    · exact ⟨s, rfl, Or.inl fun _ => rfl⟩
    · exact ⟨s, rfl, Or.inl fun _ => rfl⟩
    · exact ⟨s, rfl, Or.inl fun _ => rfl⟩
    · exact ⟨_, rfl, Or.inl fun id => hasAccount_updateBalanceSub s target id amount⟩
  | balanceOf targetIsUser isAdmin id =>
    exact ⟨s, handleBalanceCommand_db fault targetIsUser isAdmin (Db.idle s) id,
      Or.inl fun _ => rfl⟩
  | topN => exact ⟨s, handleBalanceTopCommand_db fault (Db.idle s), Or.inl fun _ => rfl⟩

/-- C15. For each of the five ledger operations, with any arguments and any fault
schedule, run on a connection with no open transaction: no transaction is left open,
every account that had a row before still has one afterwards, and an account that had no
row before has one afterwards only if it is the target of a payment answered 'Payment
Successful' or of a `give` answered 'Added ...'. -/
theorem accounts_never_deleted (fault : Nat → Bool) (op : LedgerOp) (s : Store)
    (id : String) :
    (op.after fault (Db.idle s)).tx = none ∧
    (hasAccount s id = true →
      hasAccount (op.after fault (Db.idle s)).committed id = true) ∧
    (hasAccount s id = false →
      hasAccount (op.after fault (Db.idle s)).committed id = true →
      op.credited fault (Db.idle s) = some id) := by
  obtain ⟨s', hrun, hacc⟩ := op.after_accounts fault s
  rw [hrun]
  refine ⟨rfl, ?_, ?_⟩
  · intro h
    show hasAccount s' id = true
    rcases hacc with hsame | ⟨t, _, ht⟩
    · rw [hsame, h]
    · exact (ht id).mpr (Or.inl h)
  · intro hno hnew
    have hnew' : hasAccount s' id = true := hnew
    rcases hacc with hsame | ⟨t, hcred, ht⟩
    · rw [hsame, hno] at hnew'
      cases hnew'
    · rcases (ht id).mp hnew' with h | h
      · rw [hno] at h
        cases h
      · rw [hcred, h]

/-- Witness of `accounts_never_deleted`: `give C 5` on the table that holds only A keeps
A and creates C, the credited account. -/
theorem accounts_never_deleted_witness :
    hasAccount [⟨"A", 60⟩] "A" = true ∧
    hasAccount ((LedgerOp.adminCredit "C" 5).after noFault (Db.idle [⟨"A", 60⟩])).committed "A"
      = true ∧
    hasAccount [⟨"A", 60⟩] "C" = false ∧
    hasAccount ((LedgerOp.adminCredit "C" 5).after noFault (Db.idle [⟨"A", 60⟩])).committed "C"
      = true ∧
    (LedgerOp.adminCredit "C" 5).credited noFault (Db.idle [⟨"A", 60⟩]) = some "C" :=
  ⟨by decide,
    (accounts_never_deleted noFault (LedgerOp.adminCredit "C" 5) [⟨"A", 60⟩] "A").2.1
      (by decide),
    by decide, by decide,
    (accounts_never_deleted noFault (LedgerOp.adminCredit "C" 5) [⟨"A", 60⟩] "C").2.2
      (by decide) (by decide)⟩

/-! ### The calls issued on the connection -/

/-- Recording the calls changes nothing: the recorded `/pay` handler leaves the
connection and gives the answer of `handlePayCommand`. -/
theorem handlePayCommandTraced_refines (fault : Nat → Bool) (db : Db) (calls : List DbCall)
    (user target : String) (amount : Int) :
    ((handlePayCommandTraced fault ⟨db, calls⟩ user target amount).1.db,
        (handlePayCommandTraced fault ⟨db, calls⟩ user target amount).2)
      = handlePayCommand fault db user target amount := by
  unfold handlePayCommandTraced handlePayCommand
  by_cases hne : target = user
  · simp [hne]
  · by_cases hpos : amount ≤ 0
    · simp [hne, hpos]
    · rw [if_neg hne, if_neg hpos, if_neg hne, if_neg hpos]
      unfold payTransactionTraced payTransaction Conn.call attempt
      cases h0 : fault 0 <;> cases h1 : fault 1 <;> cases h2 : fault 2 <;>
        cases h3 : fault 3 <;> cases h4 : fault 4 <;>
        by_cases hb : firstBalanceOrZero (selectBalance db.beginTransaction.current user)
          < amount <;>
        simp [hb, bind, Except.bind, pure, Except.pure]

/-- Recording the calls changes nothing for `/ecoadmin` either. -/
theorem handleEcoAdminCommandTraced_refines (fault : Nat → Bool) (isAdmin : Bool) (db : Db)
    (calls : List DbCall) (subcommand target : String) (amount : Int) :
    ((handleEcoAdminCommandTraced fault isAdmin ⟨db, calls⟩ subcommand target amount).1.db,
        (handleEcoAdminCommandTraced fault isAdmin ⟨db, calls⟩ subcommand target amount).2)
      = handleEcoAdminCommand fault isAdmin db subcommand target amount := by
  unfold handleEcoAdminCommandTraced handleEcoAdminCommand permissionsHasADMINISTRATOR
  cases isAdmin
  · simp
  · unfold ecoAdminBodyTraced ecoAdminBody Conn.call attempt
    by_cases hg : subcommand = "give"
    · cases h0 : fault 0 <;> simp [hg, bind, Except.bind, pure, Except.pure]
    · by_cases ht : subcommand = "take"
      · cases h0 : fault 0 <;> cases h1 : fault 1 <;>
          by_cases hb : firstBalanceOrZero (selectBalance db.current target) < amount <;>
          simp [ht, hb, bind, Except.bind, pure, Except.pure]
      · simp [hg, ht, pure, Except.pure]

/-- A payment that passes both checks starts with `beginTransaction()`. -/
theorem handlePayCommandTraced_begins (fault : Nat → Bool) (db : Db) (user target : String)
    (amount : Int) (hne : target ≠ user) (hpos : 0 < amount) :
    (handlePayCommandTraced fault ⟨db, []⟩ user target amount).1.calls.head?
      = some DbCall.beginTransaction := by
  unfold handlePayCommandTraced
  rw [if_neg hne, if_neg (not_le.mpr hpos)]
  unfold payTransactionTraced Conn.call
  cases h0 : fault 0 <;> cases h1 : fault 1 <;> cases h2 : fault 2 <;>
    cases h3 : fault 3 <;> cases h4 : fault 4 <;>
    by_cases hb : firstBalanceOrZero (selectBalance db.beginTransaction.current user)
      < amount <;>
    simp [hb, bind, Except.bind, pure, Except.pure]

/-- C16. A `/pay` call that is a payment to oneself or names an amount ≤ 0 is answered
with the refusal ('You cannot pay yourself.' or 'Amount must be positive.') and issues
no call on the connection: the record of calls and the connection are what they were, so
no transaction was begun and no statement was executed. -/
theorem pay_validation_issues_no_call (fault : Nat → Bool) (conn : Conn)
    (user target : String) (amount : Int) (hinvalid : target = user ∨ amount ≤ 0) :
    (handlePayCommandTraced fault conn user target amount).1 = conn ∧
    (handlePayCommandTraced fault conn user target amount).1.calls = conn.calls ∧
    (handlePayCommandTraced fault ⟨conn.db, []⟩ user target amount).1.calls = [] ∧
    (handlePayCommandTraced fault conn user target amount).2
      = (if target = user then Reply.cannotPaySelf else Reply.amountMustBePositive) := by
  unfold handlePayCommandTraced
  by_cases hne : target = user
  · simp [hne]
  · have hamt : amount ≤ 0 := hinvalid.resolve_left hne
    simp [hne, hamt]

/-- Witness of `pay_validation_issues_no_call`: A tries to pay 0 to B. -/
theorem pay_validation_issues_no_call_witness :
    ("B" = "A" ∨ (0 : Int) ≤ 0) ∧
    (handlePayCommandTraced noFault ⟨Db.idle [⟨"A", 60⟩], []⟩ "A" "B" 0).1
      = ⟨Db.idle [⟨"A", 60⟩], []⟩ ∧
    (handlePayCommandTraced noFault ⟨Db.idle [⟨"A", 60⟩], []⟩ "A" "B" 0).1.calls = [] ∧
    (handlePayCommandTraced noFault ⟨Db.idle [⟨"A", 60⟩], []⟩ "A" "B" 0).1.calls = [] ∧
    (handlePayCommandTraced noFault ⟨Db.idle [⟨"A", 60⟩], []⟩ "A" "B" 0).2
      = (if "B" = "A" then Reply.cannotPaySelf else Reply.amountMustBePositive) :=
  ⟨by decide,
    pay_validation_issues_no_call noFault ⟨Db.idle [⟨"A", 60⟩], []⟩ "A" "B" 0 (by decide)⟩

/-- C19, the code at the failing input: for a member without the Administrator
permission the call `permissions.has('ADMINISTRATOR')` of line 239 throws, so the
handler rejects before it answers anything: the refusal of line 240 is not sent,
whatever the subcommand, target, amount and fault schedule.  No call is issued on the
connection, so the record of calls, the connection and the table, hence every balance,
are what they were.  A member with the permission is let through. -/
theorem ecoadmin_non_admin_throws (fault : Nat → Bool) (conn : Conn)
    (subcommand target : String) (amount : Int) :
    permissionsHasADMINISTRATOR false = none ∧
    handleEcoAdminCommandTraced fault false conn subcommand target amount
      = (conn, Reply.threw) ∧
    (handleEcoAdminCommandTraced fault false conn subcommand target amount).2
      ≠ Reply.noPermission ∧
    (handleEcoAdminCommandTraced fault false ⟨conn.db, []⟩ subcommand target amount).1.calls
      = [] ∧
    handleEcoAdminCommand fault false conn.db subcommand target amount
      = (conn.db, Reply.threw) ∧
    (∀ u : String,
      balanceOf (handleEcoAdminCommand fault false conn.db subcommand target amount).1.current u
        = balanceOf conn.db.current u) ∧
    handleEcoAdminCommandTraced noFault false ⟨Db.idle [⟨"u", 10⟩], []⟩ "give" "u" 5
      = (⟨Db.idle [⟨"u", 10⟩], []⟩, Reply.threw) ∧
    handleEcoAdminCommandTraced noFault true ⟨Db.idle [⟨"u", 10⟩], []⟩ "give" "u" 5
      = (⟨Db.idle [⟨"u", 15⟩], [DbCall.insertOnDuplicateAdd "u" 5]⟩, Reply.added) := by
  refine ⟨rfl, ?_, ?_, ?_, ?_, ?_, by decide, by decide⟩ <;>
    simp [handleEcoAdminCommandTraced, handleEcoAdminCommand, permissionsHasADMINISTRATOR]

/-! ### Concurrent runs -/

/-- A run of `/pay` that has the connection to itself, with no call throwing, ends as
`handlePayCommand` says. -/
theorem interleave_payRun_alone (db : Db) (user target : String) (amount : Int) :
    (interleave PayRun.step [0, 0, 0, 0, 0] [PayRun.init user target amount] db).1
      = [{ user := user, target := target, amount := amount,
           pc := PayPc.finished (handlePayCommand noFault db user target amount).2 }] ∧
    (interleave PayRun.step [0, 0, 0, 0, 0] [PayRun.init user target amount] db).2.1
      = (handlePayCommand noFault db user target amount).1 := by
  unfold handlePayCommand PayRun.init
  by_cases hne : target = user
  · simp [hne, interleave, PayRun.step]
  · by_cases hpos : amount ≤ 0
    · simp [hne, hpos, interleave, PayRun.step]
    · unfold payTransaction attempt
      by_cases hb : firstBalanceOrZero (selectBalance db.beginTransaction.current user) < amount
      · simp [hne, hpos, hb, interleave, PayRun.step, noFault, bind, Except.bind, pure,
          Except.pure]
      · simp [hne, hpos, hb, interleave, PayRun.step, noFault, bind, Except.bind, pure,
          Except.pure]

/-- A run of `/ecoadmin take` that has the connection to itself, with no call throwing,
ends as `handleEcoAdminCommand` says. -/
theorem interleave_takeRun_alone (db : Db) (target : String) (amount : Int) :
    (interleave TakeRun.step [0, 0] [TakeRun.init target amount] db).1
      = [{ target := target, amount := amount,
           pc := TakePc.finished
             (handleEcoAdminCommand noFault true db "take" target amount).2 }] ∧
    (interleave TakeRun.step [0, 0] [TakeRun.init target amount] db).2.1
      = (handleEcoAdminCommand noFault true db "take" target amount).1 := by
  unfold handleEcoAdminCommand permissionsHasADMINISTRATOR ecoAdminBody attempt TakeRun.init
  by_cases hb : firstBalanceOrZero (selectBalance db.current target) < amount
  · simp [hb, interleave, TakeRun.step, noFault, bind, Except.bind, pure, Except.pure]
  · simp [hb, interleave, TakeRun.step, noFault, bind, Except.bind, pure, Except.pure]

/-- C17, the code at the failing input (N = 2, amt = 10): X holds 10 and two `/pay`
runs, X to Y1 and X to Y2 of 10 each, take turns on the connection.  Both read the
balance 10 before either `UPDATE`, both answer 'Payment Successful', none answers
'Insufficient funds.', and X ends with -10.  Run one after the other, the first
succeeds, the second is refused and X ends with 0. -/
theorem concurrent_pay_overdraws :
    (interleave PayRun.step [0, 1, 0, 1, 0, 1, 0, 1, 0, 1]
        [PayRun.init "X" "Y1" 10, PayRun.init "X" "Y2" 10] (Db.idle [⟨"X", 10⟩])).1
      = [⟨"X", "Y1", 10, PayPc.finished Reply.paymentSuccessful⟩,
         ⟨"X", "Y2", 10, PayPc.finished Reply.paymentSuccessful⟩] ∧
    (interleave PayRun.step [0, 1, 0, 1, 0, 1, 0, 1, 0, 1]
        [PayRun.init "X" "Y1" 10, PayRun.init "X" "Y2" 10] (Db.idle [⟨"X", 10⟩])).2.1
      = Db.idle [⟨"X", -10⟩, ⟨"Y1", 10⟩, ⟨"Y2", 10⟩] ∧
    balanceOf (interleave PayRun.step [0, 1, 0, 1, 0, 1, 0, 1, 0, 1]
        [PayRun.init "X" "Y1" 10, PayRun.init "X" "Y2" 10]
        (Db.idle [⟨"X", 10⟩])).2.1.committed "X" < 0 ∧
    (interleave PayRun.step [0, 0, 0, 0, 0, 1, 1, 1, 1, 1]
        [PayRun.init "X" "Y1" 10, PayRun.init "X" "Y2" 10] (Db.idle [⟨"X", 10⟩])).1
      = [⟨"X", "Y1", 10, PayPc.finished Reply.paymentSuccessful⟩,
         ⟨"X", "Y2", 10, PayPc.finished Reply.insufficientFunds⟩] ∧
    (interleave PayRun.step [0, 0, 0, 0, 0, 1, 1, 1, 1, 1]
        [PayRun.init "X" "Y1" 10, PayRun.init "X" "Y2" 10] (Db.idle [⟨"X", 10⟩])).2.1
      = Db.idle [⟨"X", 0⟩, ⟨"Y1", 10⟩] := by
  decide

/-- Two runs of `/ecoadmin take` of the same amount on the same account that both read
the balance before either writes: whenever the balance covers the amount once, both run
their `UPDATE` and answer 'Removed ...', and the amount is subtracted from the balance
twice; it ends below 0 when the balance does not cover the amount twice. -/
theorem interleave_take_twice (s : Store) (target : String) (amount : Int)
    (hex : hasAccount s target = true) (hle : amount ≤ balanceOf s target) :
    (interleave TakeRun.step [0, 1, 0, 1]
        [TakeRun.init target amount, TakeRun.init target amount] (Db.idle s)).1
      = [⟨target, amount, TakePc.finished Reply.removed⟩,
         ⟨target, amount, TakePc.finished Reply.removed⟩] ∧
    (interleave TakeRun.step [0, 1, 0, 1]
        [TakeRun.init target amount, TakeRun.init target amount] (Db.idle s)).2.1
      = Db.idle (updateBalanceSub amount target (updateBalanceSub amount target s)) ∧
    balanceOf (updateBalanceSub amount target (updateBalanceSub amount target s)) target
      = roundDouble (roundDouble (balanceOf s target - amount) - amount) := by
  have hnb : ¬ firstBalanceOrZero (selectBalance s target) < amount := not_lt.mpr hle
  refine ⟨?_, ?_, ?_⟩
  · simp [interleave, TakeRun.step, TakeRun.init, Db.idle, Db.current, Db.write, hnb]
  · simp [interleave, TakeRun.step, TakeRun.init, Db.idle, Db.current, Db.write, hnb]
  · rw [balanceOf_updateBalanceSub_self, hasAccount_updateBalanceSub, if_pos hex,
      balanceOf_updateBalanceSub_self, if_pos hex]

/-- C18, the code at the failing input (b = 10, amount = 6, so amount ≤ b < 2·amount):
two runs of `/ecoadmin take T 6` take turns on the connection.  Both read the balance 10
before either `UPDATE`, both answer 'Removed ...', and T ends with -2. -/
theorem concurrent_take_overdraws :
    (6 : Int) ≤ balanceOf [⟨"T", 10⟩] "T" ∧ balanceOf [⟨"T", 10⟩] "T" < 2 * 6 ∧
    (interleave TakeRun.step [0, 1, 0, 1]
        [TakeRun.init "T" 6, TakeRun.init "T" 6] (Db.idle [⟨"T", 10⟩])).1
      = [⟨"T", 6, TakePc.finished Reply.removed⟩, ⟨"T", 6, TakePc.finished Reply.removed⟩] ∧
    (interleave TakeRun.step [0, 1, 0, 1]
        [TakeRun.init "T" 6, TakeRun.init "T" 6] (Db.idle [⟨"T", 10⟩])).2.1
      = Db.idle [⟨"T", -2⟩] ∧
    balanceOf (interleave TakeRun.step [0, 1, 0, 1]
        [TakeRun.init "T" 6, TakeRun.init "T" 6] (Db.idle [⟨"T", 10⟩])).2.1.committed "T" < 0 := by
  decide

end EconomyCommands

namespace RoleManager

/-- C20. `validateRoleHierarchy(member, role)` returns true exactly when the member has
the ManageRoles permission and the position of the member's highest role is strictly
greater than the position of the role; when the two positions are equal it returns
false, whatever the permission. -/
theorem validateRoleHierarchy_iff (member : Member) (role : Role) :
    (validateRoleHierarchy member role = true
      ↔ member.hasManageRoles = true ∧ role.position < member.highestPosition) ∧
    validateRoleHierarchy ⟨member.hasManageRoles, role.position⟩ role = false := by
  unfold validateRoleHierarchy
  cases h : member.hasManageRoles <;> simp

end RoleManager

namespace EconomyCommands

/-! ### Frame of the writing handlers -/

theorem balanceOf_paidStore_other (s : Store) (user target u : String) (amount : Int)
    (hu : u ≠ user) (ht : u ≠ target) :
    balanceOf (paidStore s user target amount) u = balanceOf s u := by
  unfold paidStore
  rw [balanceOf_insertOnDuplicateAdd_other _ target u amount ht,
    balanceOf_updateBalanceSub_other _ user u amount hu]

theorem handlePayCommand_frame (fault : Nat → Bool) (s : Store) (user target u : String)
    (amount : Int) (hu : u ≠ user) (ht : u ≠ target) :
    (handlePayCommand fault (Db.idle s) user target amount).1.tx = none ∧
    balanceOf (handlePayCommand fault (Db.idle s) user target amount).1.committed u
      = balanceOf s u := by
  by_cases hne : target = user
  · simp [handlePayCommand, hne, Db.idle]
  · by_cases hpos : amount ≤ 0
    · simp [handlePayCommand, hne, hpos, Db.idle]
    · rw [handlePayCommand_idle fault s user target amount hne (not_le.mp hpos)]
      split_ifs
      · exact ⟨rfl, rfl⟩
      · exact ⟨rfl, rfl⟩
      · exact ⟨rfl, rfl⟩
      · exact ⟨rfl, balanceOf_paidStore_other s user target u amount hu ht⟩

theorem handleEcoAdminCommand_other_idle (fault : Nat → Bool) (isAdmin : Bool) (s : Store)
    (subcommand target : String) (amount : Int)
    (hg : subcommand ≠ "give") (ht : subcommand ≠ "take") :
    (handleEcoAdminCommand fault isAdmin (Db.idle s) subcommand target amount).1 = Db.idle s := by
  unfold handleEcoAdminCommand permissionsHasADMINISTRATOR ecoAdminBody
  cases isAdmin <;> simp [hg, ht, pure, Except.pure]

theorem handleEcoAdminCommand_frame (fault : Nat → Bool) (isAdmin : Bool) (s : Store)
    (subcommand target u : String) (amount : Int) (hu : u ≠ target) :
    (handleEcoAdminCommand fault isAdmin (Db.idle s) subcommand target amount).1.tx = none ∧
    balanceOf (handleEcoAdminCommand fault isAdmin (Db.idle s) subcommand target amount).1.committed
      u = balanceOf s u := by
  cases isAdmin
  · simp [handleEcoAdminCommand, permissionsHasADMINISTRATOR, Db.idle]
  · by_cases hg : subcommand = "give"
    · subst hg
      rw [handleEcoAdminCommand_give_idle]
      split_ifs
      · exact ⟨rfl, rfl⟩
      · exact ⟨rfl, balanceOf_insertOnDuplicateAdd_other s target u amount hu⟩
    · by_cases ht : subcommand = "take"
      · subst ht
        rw [handleEcoAdminCommand_take_idle]
        split_ifs
        · exact ⟨rfl, rfl⟩
        · exact ⟨rfl, rfl⟩
        · exact ⟨rfl, rfl⟩
        · exact ⟨rfl, balanceOf_updateBalanceSub_other s target u amount hu⟩
      · rw [handleEcoAdminCommand_other_idle fault true s subcommand target amount hg ht]
        exact ⟨rfl, rfl⟩

/-- C22. Run on a connection with no open transaction, with any arguments and any fault
schedule: `/pay` leaves the balance of every account other than the sender and the
target as it was, and `/ecoadmin give` and `/ecoadmin take` leave the balance of every
account other than the target as it was. -/
theorem ledger_writes_frame (fault : Nat → Bool) (s : Store) (u : String) :
    (∀ (user target : String) (amount : Int), u ≠ user → u ≠ target →
      balanceOf (handlePayCommand fault (Db.idle s) user target amount).1.committed u
        = balanceOf s u) ∧
    (∀ (target : String) (amount : Int), u ≠ target →
      balanceOf (handleEcoAdminCommand fault true (Db.idle s) "give" target amount).1.committed u
        = balanceOf s u) ∧
    (∀ (target : String) (amount : Int), u ≠ target →
      balanceOf (handleEcoAdminCommand fault true (Db.idle s) "take" target amount).1.committed u
        = balanceOf s u) :=
  ⟨fun user target amount hu ht => (handlePayCommand_frame fault s user target u amount hu ht).2,
    fun target amount hu => (handleEcoAdminCommand_frame fault true s "give" target u amount hu).2,
    fun target amount hu => (handleEcoAdminCommand_frame fault true s "take" target u amount hu).2⟩

/-- Witness of `ledger_writes_frame`: the account C while A pays B, and while B is given
to or taken from. -/
theorem ledger_writes_frame_witness :
    handlePayCommand noFault (Db.idle [⟨"A", 60⟩, ⟨"B", 40⟩, ⟨"C", 7⟩]) "A" "B" 10
      = (Db.idle [⟨"A", 50⟩, ⟨"B", 50⟩, ⟨"C", 7⟩], Reply.paymentSuccessful) ∧
    balanceOf
      (handlePayCommand noFault (Db.idle [⟨"A", 60⟩, ⟨"B", 40⟩, ⟨"C", 7⟩]) "A" "B" 10).1.committed
      "C" = balanceOf [⟨"A", 60⟩, ⟨"B", 40⟩, ⟨"C", 7⟩] "C" ∧
    balanceOf
      (handleEcoAdminCommand noFault true (Db.idle [⟨"A", 60⟩, ⟨"B", 40⟩, ⟨"C", 7⟩])
        "give" "B" 10).1.committed
      "C" = balanceOf [⟨"A", 60⟩, ⟨"B", 40⟩, ⟨"C", 7⟩] "C" ∧
    balanceOf
      (handleEcoAdminCommand noFault true (Db.idle [⟨"A", 60⟩, ⟨"B", 40⟩, ⟨"C", 7⟩])
        "take" "B" 10).1.committed
      "C" = balanceOf [⟨"A", 60⟩, ⟨"B", 40⟩, ⟨"C", 7⟩] "C" :=
  ⟨by decide,
    (ledger_writes_frame noFault [⟨"A", 60⟩, ⟨"B", 40⟩, ⟨"C", 7⟩] "C").1 "A" "B" 10
      (by decide) (by decide),
    (ledger_writes_frame noFault [⟨"A", 60⟩, ⟨"B", 40⟩, ⟨"C", 7⟩] "C").2.1 "B" 10 (by decide),
    (ledger_writes_frame noFault [⟨"A", 60⟩, ⟨"B", 40⟩, ⟨"C", 7⟩] "C").2.2 "B" 10 (by decide)⟩

end EconomyCommands

namespace StatsCommands

theorem log2Aux_le (fuel n k : Nat) (h : n < 2 ^ (k + 1)) :
    EconomyCommands.log2Aux fuel n ≤ k := by
  induction fuel generalizing n k with
  | zero => exact Nat.zero_le k
  | succ fuel ih =>
    unfold EconomyCommands.log2Aux
    by_cases h2 : 2 ≤ n
    · rw [if_pos h2]
      cases k with
      | zero => omega
      | succ k =>
        have hn : n / 2 < 2 ^ (k + 1) := by
          rw [Nat.div_lt_iff_lt_mul (by decide)]
          calc n < 2 ^ (k + 1 + 1) := h
            _ = 2 ^ (k + 1) * 2 := pow_succ 2 (k + 1)
        exact Nat.succ_le_succ (ih (n / 2) k hn)
    · rw [if_neg h2]
      exact Nat.zero_le k

/-- With at least four bits behind the binary point, the rounded quotient of a whole
number by 24 rounds down to the whole quotient. -/
theorem round_quotient_floor (a e f : Nat) (hf : 4 ≤ f) :
    (if 2 * (a * (2 ^ f * 2 ^ e) % (24 * 2 ^ e)) > 24 * 2 ^ e ∨
          (2 * (a * (2 ^ f * 2 ^ e) % (24 * 2 ^ e)) = 24 * 2 ^ e ∧
            a * (2 ^ f * 2 ^ e) / (24 * 2 ^ e) % 2 = 1)
        then a * (2 ^ f * 2 ^ e) / (24 * 2 ^ e) + 1
        else a * (2 ^ f * 2 ^ e) / (24 * 2 ^ e)) * 2 ^ e / (2 ^ f * 2 ^ e) = a / 24 := by
  have hE : 0 < 2 ^ e := pow_pos (by decide) e
  have hP : 16 ≤ 2 ^ f := by
    calc 16 = 2 ^ 4 := by norm_num
      _ ≤ 2 ^ f := Nat.pow_le_pow_right (by decide) hf
  have hq : a * (2 ^ f * 2 ^ e) / (24 * 2 ^ e) = a * 2 ^ f / 24 := by
    rw [← mul_assoc]
    exact Nat.mul_div_mul_right _ _ hE
  have hr : a * (2 ^ f * 2 ^ e) % (24 * 2 ^ e) = a * 2 ^ f % 24 * 2 ^ e := by
    rw [← mul_assoc]
    exact Nat.mul_mod_mul_right _ _ _
  rw [hq, hr, Nat.mul_div_mul_right _ _ hE]
  have hdm := Nat.div_add_mod (a * 2 ^ f) 24
  have hrlt := Nat.mod_lt (a * 2 ^ f) (show 0 < 24 by decide)
  have ha := Nat.div_add_mod a 24
  have hk := Nat.mod_lt a (show 0 < 24 by decide)
  have hsplit : a * 2 ^ f = 24 * (a / 24 * 2 ^ f) + a % 24 * 2 ^ f := by
    calc a * 2 ^ f = (24 * (a / 24) + a % 24) * 2 ^ f := by rw [ha]
      _ = 24 * (a / 24 * 2 ^ f) + a % 24 * 2 ^ f := by ring
  have hkP : a % 24 * 2 ^ f ≤ 23 * 2 ^ f := Nat.mul_le_mul_right _ (by omega)
  have hsucc : (a / 24 + 1) * 2 ^ f = a / 24 * 2 ^ f + 2 ^ f := by ring
  apply Nat.div_eq_of_lt_le
  · split_ifs <;> omega
  · rw [hsucc]
    split_ifs with hc
    · have hge : 12 ≤ a * 2 ^ f % 24 := by
        rcases hc with hc | ⟨hc, _⟩
        · have h1 : 2 * (a * 2 ^ f % 24) * 2 ^ e > 24 * 2 ^ e := by
            rw [mul_assoc]; exact hc
          have := Nat.lt_of_mul_lt_mul_right h1
          omega
        · have h1 : 2 * (a * 2 ^ f % 24) * 2 ^ e = 24 * 2 ^ e := by
            rw [mul_assoc]; exact hc
          have := Nat.eq_of_mul_eq_mul_right hE h1
          omega
      omega
    · omega

/-- For a whole number of hours that a double holds exactly, `Math.floor(hours / 24)` is
the whole quotient. -/
theorem floorDiv24_eq (hours : Nat) (hsafe : hours ≤ 9007199254740992) :
    floorDiv24 hours = hours / 24 := by
  have hlog : EconomyCommands.floorLog2 (hours * 2 ^ 64 / 24) ≤ 112 := by
    apply log2Aux_le
    rw [Nat.div_lt_iff_lt_mul (by decide)]
    calc hours * 2 ^ 64 ≤ 9007199254740992 * 2 ^ 64 := Nat.mul_le_mul_right _ hsafe
      _ < 2 ^ (112 + 1) * 24 := by norm_num
  obtain ⟨f, hf, hf4⟩ : ∃ f, 64 = f + (EconomyCommands.floorLog2 (hours * 2 ^ 64 / 24) - 52) ∧
      4 ≤ f := ⟨64 - (EconomyCommands.floorLog2 (hours * 2 ^ 64 / 24) - 52), by omega, by omega⟩
  have h64 : (2 : Nat) ^ 64
      = 2 ^ f * 2 ^ (EconomyCommands.floorLog2 (hours * 2 ^ 64 / 24) - 52) := by
    rw [← pow_add, ← hf]
  have hcore := round_quotient_floor hours
    (EconomyCommands.floorLog2 (hours * 2 ^ 64 / 24) - 52) f hf4
  rw [← h64] at hcore
  exact hcore

set_option maxRecDepth 100000 in
/-- C24, as stated, fails: `hours = 2^58 + 64` is a non-negative integer that a
JavaScript number holds, and for it `Math.floor(hours / 24)` is 12009599006321326, one
more than the whole quotient 12009599006321325, because the division of doubles rounds
the quotient up to a whole number; with the remainder 8 the parts that `formatTime`
writes give `24 * d + r = hours + 24`, not `hours`. -/
theorem formatTime_days_rounded_up :
    EconomyCommands.roundNat 288230376151711808 = 288230376151711808 ∧
    (24 : Nat) ≤ 288230376151711808 ∧
    floorDiv24 288230376151711808 = 12009599006321326 ∧
    288230376151711808 / 24 = 12009599006321325 ∧
    288230376151711808 % 24 = 8 ∧
    24 * floorDiv24 288230376151711808 + 288230376151711808 % 24 = 288230376151711808 + 24 ∧
    24 * floorDiv24 288230376151711808 + 288230376151711808 % 24 ≠ 288230376151711808 ∧
    formatTime 288230376151711808 = "12009599006321326d 8h" ∧
    formatTime 288230376151711808
      ≠ toString (288230376151711808 / 24) ++ "d " ++ toString (288230376151711808 % 24)
          ++ "h" := by
  refine ⟨by decide, by decide, by decide, by decide, by decide, by decide, by decide,
    by decide, by decide⟩

/-- C24, amended. For a non-negative integer `hours` up to 2^53, the range in which a
JavaScript number holds every integer: below 24, `formatTime` writes the hours followed
by `h`; from 24 on it writes `d = hours / 24` (rounded down, at least 1) followed by
`d`, a blank, and `r = hours % 24` followed by `h`, where `24 * d + r = hours` and
`r < 24`. -/
theorem formatTime_spec (hours : Nat) (hsafe : hours ≤ 9007199254740992) :
    (hours < 24 → formatTime hours = toString hours ++ "h") ∧
    (24 ≤ hours →
      formatTime hours
        = toString (hours / 24) ++ "d " ++ toString (hours % 24) ++ "h" ∧
      1 ≤ hours / 24 ∧ 24 * (hours / 24) + hours % 24 = hours ∧ hours % 24 < 24) := by
  unfold formatTime
  rw [floorDiv24_eq hours hsafe]
  constructor
  · intro h
    have hd : hours / 24 = 0 := Nat.div_eq_of_lt h
    simp [hd]
  · intro h
    have hd : 0 < hours / 24 := Nat.div_pos h (by decide)
    refine ⟨?_, hd, Nat.div_add_mod hours 24, Nat.mod_lt hours (by decide)⟩
    simp [hd]

/-- Witness of `formatTime_spec`: 5 hours and 50 hours. -/
theorem formatTime_spec_witness :
    (5 ≤ 9007199254740992 ∧ 5 < 24 ∧ 50 ≤ 9007199254740992 ∧ 24 ≤ 50) ∧
    formatTime 5 = "5h" ∧ formatTime 50 = "2d 2h" ∧
    formatTime 5 = toString 5 ++ "h" ∧
    (formatTime 50 = toString (50 / 24) ++ "d " ++ toString (50 % 24) ++ "h" ∧
      1 ≤ 50 / 24 ∧ 24 * (50 / 24) + 50 % 24 = 50 ∧ 50 % 24 < 24) :=
  ⟨by decide, by decide, by decide, (formatTime_spec 5 (by decide)).1 (by decide),
    (formatTime_spec 50 (by decide)).2 (by decide)⟩

end StatsCommands

namespace RoleManager

theorem foldl_bulkAssignStep (members : List BulkMember) (results : BulkResults) :
    (members.foldl bulkAssignStep results).successful
      = results.successful
          ++ (members.filter fun m => m.addThrows = none).map (fun m => m.id) ∧
    (members.foldl bulkAssignStep results).failed
      = results.failed
          ++ members.filterMap fun m =>
              m.addThrows.map fun message => { memberId := m.id, error := message } := by
  induction members generalizing results with
  | nil => simp
  | cons m ms ih =>
    rw [List.foldl_cons]
    obtain ⟨h1, h2⟩ := ih (bulkAssignStep results m)
    rw [h1, h2]
    unfold bulkAssignStep
    cases hm : m.addThrows <;> simp [hm, List.filter_cons, List.filterMap_cons]

/-- The lists `bulkAssignRole` returns: the ids of the entries whose call resolved, and
id and message of the entries whose call threw, both in the order of the input. -/
theorem bulkAssignRole_lists (members : List BulkMember) :
    (bulkAssignRole members).successful
      = (members.filter fun m => m.addThrows = none).map (fun m => m.id) ∧
    (bulkAssignRole members).failed
      = members.filterMap fun m =>
          m.addThrows.map fun message => { memberId := m.id, error := message } := by
  have h := foldl_bulkAssignStep members { successful := [], failed := [] }
  simpa [bulkAssignRole] using h

theorem bulkAssignRole_count (members : List BulkMember) (id : String) :
    (bulkAssignRole members).successful.count id
        + ((bulkAssignRole members).failed.map fun f => f.memberId).count id
      = (members.map fun m => m.id).count id := by
  rw [(bulkAssignRole_lists members).1, (bulkAssignRole_lists members).2]
  induction members with
  | nil => simp
  | cons m ms ih =>
    cases hm : m.addThrows with
    | none =>
      simp only [List.filter_cons, hm, decide_True, if_true, List.map_cons, List.filterMap_cons,
        Option.map_none', List.count_cons] at ih ⊢
      omega
    | some e =>
      simp only [List.filter_cons, hm, List.map_cons, List.filterMap_cons,
        Option.map_some', List.count_cons] at ih ⊢
      simp only [reduceCtorEq, decide_False, Bool.false_eq_true, if_false] at ih ⊢
      omega

/-- C26, as stated, fails: for a list that names the member `m` twice, both calls
resolving, the id `m` appears twice in `results.successful`, not exactly once. -/
theorem bulkAssignRole_repeated_member :
    bulkAssignRole [⟨"m", none⟩, ⟨"m", none⟩] = { successful := ["m", "m"], failed := [] } ∧
    (bulkAssignRole [⟨"m", none⟩, ⟨"m", none⟩]).successful.count "m" = 2 := by
  decide

/-- C26, amended. `bulkAssignRole` makes one record per entry of `members`:
`successful` holds the ids of the entries whose call resolved and `failed` holds id and
error message of the entries whose call threw, both in input order, so a throw stops
nothing; the two lengths add up to the number of entries; an id appears in the results
as many times as the member is listed, hence exactly once when no member is listed
twice. -/
theorem bulkAssignRole_results (members : List BulkMember) :
    (bulkAssignRole members).successful
      = (members.filter fun m => m.addThrows = none).map (fun m => m.id) ∧
    (bulkAssignRole members).failed
      = (members.filterMap fun m =>
          m.addThrows.map fun message => { memberId := m.id, error := message }) ∧
    (bulkAssignRole members).successful.length + (bulkAssignRole members).failed.length
      = members.length ∧
    (∀ id : String,
      (bulkAssignRole members).successful.count id
          + ((bulkAssignRole members).failed.map fun f => f.memberId).count id
        = (members.map fun m => m.id).count id) ∧
    ((members.map fun m => m.id).Nodup → ∀ m ∈ members,
      (bulkAssignRole members).successful.count m.id
          + ((bulkAssignRole members).failed.map fun f => f.memberId).count m.id = 1) := by
  refine ⟨(bulkAssignRole_lists members).1, (bulkAssignRole_lists members).2, ?_,
    bulkAssignRole_count members, ?_⟩
  · have h := bulkAssignRole_count members
    rw [(bulkAssignRole_lists members).1, (bulkAssignRole_lists members).2]
    clear h
    induction members with
    | nil => simp
    | cons m ms ih =>
      cases hm : m.addThrows <;>
        simp only [List.filter_cons, hm, List.map_cons, List.filterMap_cons, Option.map_none',
          Option.map_some', List.length_cons, decide_True, if_true, reduceCtorEq, decide_False,
          Bool.false_eq_true, if_false] at ih ⊢ <;>
        omega
  · intro hnd m hm
    rw [bulkAssignRole_count members m.id]
    exact List.count_eq_one_of_mem hnd (List.mem_map_of_mem (fun m => m.id) hm)

/-- Witness of `bulkAssignRole_results`: three members, the second call throws. -/
theorem bulkAssignRole_results_witness :
    (([⟨"a", none⟩, ⟨"b", some "Missing Permissions"⟩, ⟨"c", none⟩] : List BulkMember).map
      fun m => m.id).Nodup ∧
    bulkAssignRole [⟨"a", none⟩, ⟨"b", some "Missing Permissions"⟩, ⟨"c", none⟩]
      = { successful := ["a", "c"], failed := [⟨"b", "Missing Permissions"⟩] } ∧
    (∀ m ∈ ([⟨"a", none⟩, ⟨"b", some "Missing Permissions"⟩, ⟨"c", none⟩] : List BulkMember),
      (bulkAssignRole
          [⟨"a", none⟩, ⟨"b", some "Missing Permissions"⟩, ⟨"c", none⟩]).successful.count m.id
        + ((bulkAssignRole
            [⟨"a", none⟩, ⟨"b", some "Missing Permissions"⟩, ⟨"c", none⟩]).failed.map
              fun f => f.memberId).count m.id = 1) :=
  ⟨by decide, by decide,
    (bulkAssignRole_results
      [⟨"a", none⟩, ⟨"b", some "Missing Permissions"⟩, ⟨"c", none⟩]).2.2.2.2 (by decide)⟩

end RoleManager

namespace Pterodactyl

theorem foldl_delete (existing : List ServerDoc) (db : ConvexDb) :
    (existing.foldl (fun d server => d.delete server._id) db).servers
      = db.servers.filter (fun d => decide (d._id ∉ existing.map fun e => e._id)) ∧
    (existing.foldl (fun d server => d.delete server._id) db).nextId = db.nextId := by
  induction existing generalizing db with
  | nil => simp
  | cons e es ih =>
    rw [List.foldl_cons]
    obtain ⟨h1, h2⟩ := ih (db.delete e._id)
    rw [h1, h2]
    refine ⟨?_, rfl⟩
    simp only [ConvexDb.delete, List.filter_filter]
    apply List.filter_congr
    intro d _
    simp only [List.map_cons, List.mem_cons, not_or, Bool.decide_and, Bool.and_comm]

/-- Deleting the documents of `userId` one by one, by `_id`, removes exactly the
documents of `userId` when no two documents share an `_id`. -/
theorem cleared_servers (db : ConvexDb) (hwf : WellFormed db) (userId : String) :
    ((byUser db userId).foldl (fun d server => d.delete server._id) db).servers
      = db.servers.filter (fun d => decide (d.userId ≠ userId)) := by
  rw [(foldl_delete (byUser db userId) db).1]
  apply List.filter_congr
  intro d hd
  have hiff : (d._id ∈ (byUser db userId).map fun e => e._id) ↔ d.userId = userId := by
    constructor
    · intro hmem
      obtain ⟨e, he, heq⟩ := List.mem_map.mp hmem
      have he' : e ∈ db.servers ∧ e.userId = userId := by
        simpa [byUser] using he
      have : e = d := List.inj_on_of_nodup_map hwf.1 he'.1 hd heq
      rw [← this]
      exact he'.2
    · intro hu
      exact List.mem_map.mpr ⟨d, by simp [byUser, hd, hu], rfl⟩
  simp only [hiff]

/-- The inserts append one document per entry, in order, with the fields of the entry,
the given `userId` and the `_id`s from `nextId` on. -/
theorem foldl_insert (servers : List ServerArgs) (userId : String) (db : ConvexDb) :
    ∃ docs : List ServerDoc,
      (servers.foldl (fun d server => d.insert server userId) db).servers
        = db.servers ++ docs ∧
      (servers.foldl (fun d server => d.insert server userId) db).nextId
        = db.nextId + servers.length ∧
      docs.map ServerDoc.fields = servers.map (stored userId) ∧
      docs.map (fun d => d._id) = List.range' db.nextId servers.length ∧
      ∀ d ∈ docs, d.userId = userId := by
  induction servers generalizing db with
  | nil => exact ⟨[], by simp, by simp, rfl, rfl, by simp⟩
  | cons a as ih =>
    obtain ⟨docs, h1, h2, h3, h4, h5⟩ := ih (db.insert a userId)
    refine ⟨⟨db.nextId, a.name, a.serverId, a.status, userId⟩ :: docs, ?_, ?_, ?_, ?_, ?_⟩
    · rw [List.foldl_cons, h1]
      simp [ConvexDb.insert]
    · rw [List.foldl_cons, h2]
      simp only [ConvexDb.insert, List.length_cons]
      omega
    · simp only [List.map_cons, h3]
      rfl
    · simp only [List.map_cons, List.length_cons, h4, ConvexDb.insert, List.range'_succ]
    · intro d hd
      rcases List.mem_cons.mp hd with h | h
      · rw [h]
      · exact h5 d h

/-- What an authenticated call of `updateServers` leaves: the documents of the other
users, followed by one new document per entry. -/
theorem updateServers_ok (db : ConvexDb) (hwf : WellFormed db) (userId : String)
    (servers : List ServerArgs) :
    ∃ docs : List ServerDoc,
      updateServers (some userId) db servers
        = .ok { servers := db.servers.filter (fun d => decide (d.userId ≠ userId)) ++ docs,
                nextId := db.nextId + servers.length } ∧
      docs.map ServerDoc.fields = servers.map (stored userId) ∧
      docs.map (fun d => d._id) = List.range' db.nextId servers.length ∧
      ∀ d ∈ docs, d.userId = userId := by
  obtain ⟨docs, h1, h2, h3, h4, h5⟩ := foldl_insert servers userId
    ((byUser db userId).foldl (fun d server => d.delete server._id) db)
  rw [cleared_servers db hwf userId] at h1
  rw [(foldl_delete (byUser db userId) db).2] at h2 h4
  refine ⟨docs, ?_, h3, h4, h5⟩
  unfold updateServers
  simp only []
  congr 1
  cases hres : (servers.foldl (fun d server => d.insert server userId)
    ((byUser db userId).foldl (fun d server => d.delete server._id) db)) with
  | mk srv nid =>
    rw [hres] at h1 h2
    simp only at h1 h2
    rw [h1, h2]

/-- C21. On a table whose `_id`s are unique and below `nextId`: a call of
`updateServers` by the authenticated user `u` with the list `L` succeeds; afterwards
`listServers` gives `u` exactly the entries of `L`, in order, each with `userId` `u`,
and none of the documents `u` had before; `listServers` gives every other user what it
gave before; the table is again well formed.  A call without an authenticated user
throws "Not authenticated" and leaves the table as it was. -/
theorem updateServers_replaces (db : ConvexDb) (hwf : WellFormed db) (u : String)
    (L : List ServerArgs) :
    (∃ db', updateServers (some u) db L = .ok db') ∧
    (listServers (some u) (tableAfter (some u) db L)).map ServerDoc.fields
      = L.map (stored u) ∧
    (∀ d ∈ listServers (some u) (tableAfter (some u) db L), d ∉ db.servers) ∧
    (∀ v : String, v ≠ u →
      listServers (some v) (tableAfter (some u) db L) = listServers (some v) db) ∧
    WellFormed (tableAfter (some u) db L) ∧
    updateServers none db L = .error "Not authenticated" ∧
    tableAfter none db L = db := by
  obtain ⟨docs, hok, hfields, hids, huser⟩ := updateServers_ok db hwf u L
  have hafter : tableAfter (some u) db L
      = { servers := db.servers.filter (fun d => decide (d.userId ≠ u)) ++ docs,
          nextId := db.nextId + L.length } := by
    unfold tableAfter
    rw [hok]
  have hnew : ∀ d ∈ docs, db.nextId ≤ d._id ∧ d._id < db.nextId + L.length := by
    intro d hd
    have hm : d._id ∈ docs.map (fun d => d._id) := List.mem_map_of_mem (fun d => d._id) hd
    rw [hids] at hm
    simpa using hm
  have hmine : listServers (some u) (tableAfter (some u) db L) = docs := by
    rw [hafter]
    simp only [listServers, byUser, List.filter_append, List.filter_filter]
    have h1 : (db.servers.filter fun d => decide (d.userId = u) && decide (d.userId ≠ u)) = [] := by
      rw [List.filter_eq_nil_iff]
      intro d _
      by_cases h : d.userId = u <;> simp [h]
    have h2 : docs.filter (fun d => decide (d.userId = u)) = docs := by
      rw [List.filter_eq_self]
      intro d hd
      simp [huser d hd]
    rw [h1, h2, List.nil_append]
  refine ⟨⟨_, hok⟩, ?_, ?_, ?_, ?_, rfl, rfl⟩
  · rw [hmine, hfields]
  · rw [hmine]
    intro d hd hold
    exact absurd (hwf.2 d hold) (not_lt.mpr (hnew d hd).1)
  · intro v hv
    rw [hafter]
    simp only [listServers, byUser, List.filter_append, List.filter_filter]
    have h1 : (db.servers.filter fun d => decide (d.userId = v) && decide (d.userId ≠ u))
        = db.servers.filter fun d => decide (d.userId = v) := by
      apply List.filter_congr
      intro d _
      by_cases h : d.userId = v
      · have : d.userId ≠ u := h ▸ hv
        simp [h, hv]
      · simp [h]
    have h2 : docs.filter (fun d => decide (d.userId = v)) = [] := by
      rw [List.filter_eq_nil_iff]
      intro d hd
      have : d.userId ≠ v := by rw [huser d hd]; exact Ne.symm hv
      simp [this]
    rw [h1, h2, List.append_nil]
  · rw [hafter]
    constructor
    · show (List.map (fun d => d._id)
        (db.servers.filter (fun d => decide (d.userId ≠ u)) ++ docs)).Nodup
      rw [List.map_append, hids]
      refine List.Nodup.append ?_ (List.nodup_range' db.nextId L.length) ?_
      · exact List.Nodup.sublist (List.Sublist.map _ (List.filter_sublist _)) hwf.1
      · intro x hx hx'
        obtain ⟨d, hd, rfl⟩ := List.mem_map.mp hx
        have hlt := hwf.2 d (List.mem_of_mem_filter hd)
        have hge : db.nextId ≤ d._id := by
          have := List.mem_range'_1.mp hx'
          exact this.1
        exact absurd hlt (not_lt.mpr hge)
    · intro d hd
      show d._id < db.nextId + L.length
      rcases List.mem_append.mp hd with h | h
      · exact lt_of_lt_of_le (hwf.2 d (List.mem_of_mem_filter h)) (Nat.le_add_right _ _)
      · exact (hnew d h).2

/-- Witness of `updateServers_replaces`: `u` replaces its one server by two, `w` keeps
its own. -/
theorem updateServers_replaces_witness :
    WellFormed { servers := [⟨0, "old", "s0", "running", "u"⟩, ⟨1, "other", "s1", "offline", "w"⟩],
                 nextId := 2 } ∧
    tableAfter (some "u")
        { servers := [⟨0, "old", "s0", "running", "u"⟩, ⟨1, "other", "s1", "offline", "w"⟩],
          nextId := 2 }
        [⟨"alpha", "a1", "running"⟩, ⟨"beta", "b2", "starting"⟩]
      = { servers := [⟨1, "other", "s1", "offline", "w"⟩, ⟨2, "alpha", "a1", "running", "u"⟩,
            ⟨3, "beta", "b2", "starting", "u"⟩],
          nextId := 4 } ∧
    (listServers (some "u") (tableAfter (some "u")
        { servers := [⟨0, "old", "s0", "running", "u"⟩, ⟨1, "other", "s1", "offline", "w"⟩],
          nextId := 2 }
        [⟨"alpha", "a1", "running"⟩, ⟨"beta", "b2", "starting"⟩])).map ServerDoc.fields
      = [⟨"alpha", "a1", "running"⟩, ⟨"beta", "b2", "starting"⟩].map (stored "u") :=
  ⟨by decide, by decide,
    (updateServers_replaces
      { servers := [⟨0, "old", "s0", "running", "u"⟩, ⟨1, "other", "s1", "offline", "w"⟩],
        nextId := 2 }
      (by decide) "u" [⟨"alpha", "a1", "running"⟩, ⟨"beta", "b2", "starting"⟩]).2.1⟩

end Pterodactyl

namespace TicketSystem

theorem mapSet_of_not_mem (m : List (String × Ticket)) (key : String) (value : Ticket)
    (h : key ∉ m.map fun kv => kv.1) :
    (m.map fun kv => if kv.1 = key then (key, value) else kv) = m := by
  induction m with
  | nil => rfl
  | cons kv m ih =>
    simp only [List.map_cons, List.mem_cons, not_or] at h
    rw [List.map_cons, ih h.2, if_neg (Ne.symm h.1)]

/-- Replacing the value of a key of a map by a ticket with a new id keeps the keys and
keeps the ids distinct. -/
theorem replace_keys_ids (m : List (String × Ticket)) (key : String) (value : Ticket)
    (hkeys : (m.map fun kv => kv.1).Nodup) (hids : (m.map fun kv => kv.2.id).Nodup)
    (hnew : value.id ∉ m.map fun kv => kv.2.id) :
    ((m.map fun kv => if kv.1 = key then (key, value) else kv).map fun kv => kv.1)
      = (m.map fun kv => kv.1) ∧
    ((m.map fun kv => if kv.1 = key then (key, value) else kv).map fun kv => kv.2.id).Nodup ∧
    ∀ x ∈ (m.map fun kv => if kv.1 = key then (key, value) else kv).map fun kv => kv.2.id,
      x = value.id ∨ x ∈ m.map fun kv => kv.2.id := by
  induction m with
  | nil => simp
  | cons kv m ih =>
    rw [List.map_cons, List.nodup_cons] at hkeys hids
    rw [List.map_cons, List.mem_cons, not_or] at hnew
    obtain ⟨ihk, ihn, ihm⟩ := ih hkeys.2 hids.2 hnew.2
    by_cases hk : kv.1 = key
    · have hnot : key ∉ m.map fun kv => kv.1 := hk ▸ hkeys.1
      have htail := mapSet_of_not_mem m key value hnot
      simp only [List.map_cons, if_pos hk, htail]
      refine ⟨by rw [hk], ?_, ?_⟩
      · exact List.nodup_cons.mpr ⟨hnew.2, hids.2⟩
      · intro x hx
        rcases List.mem_cons.mp hx with h | h
        · exact Or.inl h
        · exact Or.inr (List.mem_cons_of_mem _ h)
    · simp only [List.map_cons, if_neg hk]
      refine ⟨by rw [ihk], ?_, ?_⟩
      · refine List.nodup_cons.mpr ⟨?_, ihn⟩
        intro hmem
        rcases ihm _ hmem with h | h
        · exact hnew.1 h.symm
        · exact hids.1 h
      · intro x hx
        rcases List.mem_cons.mp hx with h | h
        · exact Or.inr (List.mem_cons.mpr (Or.inl h))
        · rcases ihm x h with h' | h'
          · exact Or.inl h'
          · exact Or.inr (List.mem_cons_of_mem _ h')

theorem invariant_fresh : Invariant fresh := by
  refine ⟨?_, ?_, ?_, ?_⟩ <;> simp [fresh]

theorem counter_not_mem_ids (s : State) (hinv : Invariant s) :
    s.ticketCounter + 1 ∉ s.tickets.map fun kv => kv.2.id := by
  intro hmem
  obtain ⟨kv, hkv, heq⟩ := List.mem_map.mp hmem
  have := (hinv.2.1 kv hkv).2.2
  omega

theorem handleTicketCreate_invariant (s : State) (customId userId : String)
    (ticketChannel : Option String) (hinv : Invariant s) :
    Invariant (handleTicketCreate s customId userId ticketChannel) := by
  unfold handleTicketCreate
  by_cases hc : customId ≠ "create_ticket"
  · rw [if_pos hc]; exact hinv
  · rw [if_neg hc]
    obtain ⟨hkeys, hall, hids, hlen⟩ := hinv
    have hnew := counter_not_mem_ids s ⟨hkeys, hall, hids, hlen⟩
    cases ticketChannel with
    | none =>
      refine ⟨hkeys, ?_, hids, Nat.le_succ_of_le hlen⟩
      intro kv hkv
      obtain ⟨h1, h2, h3⟩ := hall kv hkv
      exact ⟨h1, h2, Nat.le_succ_of_le h3⟩
    | some channelId =>
      simp only [mapSet]
      by_cases hex : (s.tickets.any fun kv => decide (kv.1 = channelId)) = true
      · rw [if_pos hex]
        obtain ⟨rk, rn, _⟩ := replace_keys_ids s.tickets channelId
          { id := s.ticketCounter + 1, userId := userId, status := "open", messages := [] }
          hkeys hids hnew
        refine ⟨?_, ?_, rn, ?_⟩
        · rw [rk]; exact hkeys
        · intro kv hkv
          obtain ⟨old, hold, heq⟩ := List.mem_map.mp hkv
          by_cases hk : old.1 = channelId
          · rw [if_pos hk] at heq
            rw [← heq]
            exact ⟨rfl, Nat.le_add_left 1 _, le_refl _⟩
          · rw [if_neg hk] at heq
            rw [← heq]
            obtain ⟨h1, h2, h3⟩ := hall old hold
            exact ⟨h1, h2, Nat.le_succ_of_le h3⟩
        · show (List.map _ s.tickets).length ≤ s.ticketCounter + 1
          rw [List.length_map]
          exact Nat.le_succ_of_le hlen
      · rw [if_neg hex]
        have hnk : channelId ∉ s.tickets.map fun kv => kv.1 := by
          intro hmem
          apply hex
          obtain ⟨kv, hkv, heq⟩ := List.mem_map.mp hmem
          exact List.any_eq_true.mpr ⟨kv, hkv, by simp [heq]⟩
        refine ⟨?_, ?_, ?_, ?_⟩
        · show (List.map (fun kv => kv.1) (s.tickets ++ [_])).Nodup
          rw [List.map_append]
          refine List.Nodup.append hkeys (List.nodup_singleton _) ?_
          intro x hx hx'
          rw [List.map_singleton, List.mem_singleton] at hx'
          have hx'' : x = channelId := hx'
          exact hnk (hx'' ▸ hx)
        · intro kv hkv
          rcases List.mem_append.mp hkv with h | h
          · obtain ⟨h1, h2, h3⟩ := hall kv h
            exact ⟨h1, h2, Nat.le_succ_of_le h3⟩
          · rw [List.mem_singleton] at h
            rw [h]
            exact ⟨rfl, Nat.le_add_left 1 _, le_refl _⟩
        · show (List.map (fun kv => kv.2.id) (s.tickets ++ [_])).Nodup
          rw [List.map_append]
          refine List.Nodup.append hids (List.nodup_singleton _) ?_
          intro x hx hx'
          rw [List.map_singleton, List.mem_singleton] at hx'
          have hx'' : x = s.ticketCounter + 1 := hx'
          exact hnew (hx'' ▸ hx)
        · show (s.tickets ++ [_]).length ≤ s.ticketCounter + 1
          rw [List.length_append, List.length_singleton]
          exact Nat.succ_le_succ hlen

theorem handleTicketClose_invariant (s : State) (customId channelId : String)
    (completes : Bool) (hinv : Invariant s) :
    Invariant (handleTicketClose s customId channelId completes) := by
  unfold handleTicketClose
  by_cases hc : customId ≠ "close_ticket"
  · rw [if_pos hc]; exact hinv
  · rw [if_neg hc]
    cases mapGet s.tickets channelId with
    | none => exact hinv
    | some ticket =>
      cases completes with
      | false => exact hinv
      | true =>
        obtain ⟨hkeys, hall, hids, hlen⟩ := hinv
        have hsub : (mapDelete s.tickets channelId).Sublist s.tickets := List.filter_sublist _
        refine ⟨?_, ?_, ?_, ?_⟩
        · exact List.Nodup.sublist (List.Sublist.map _ hsub) hkeys
        · intro kv hkv
          exact hall kv (hsub.subset hkv)
        · exact List.Nodup.sublist (List.Sublist.map _ hsub) hids
        · exact le_trans hsub.length_le hlen

theorem runCalls_invariant (calls : List Call) (s : State) (hinv : Invariant s) :
    Invariant (runCalls calls s) := by
  induction calls generalizing s with
  | nil => exact hinv
  | cons c cs ih =>
    show Invariant (runCalls cs (c.run s))
    apply ih
    cases c with
    | create customId userId ticketChannel =>
      exact handleTicketCreate_invariant s customId userId ticketChannel hinv
    | close customId channelId completes =>
      exact handleTicketClose_invariant s customId channelId completes hinv

theorem open_count_le (s : State) :
    ((s.tickets.map fun kv => kv.2).filter fun t => decide (t.status = "open")).length
      ≤ s.tickets.length := by
  have h := List.length_filter_le (fun t : Ticket => decide (t.status = "open"))
    (s.tickets.map fun kv => kv.2)
  rwa [List.length_map] at h

/-- C23. In the state reached from a fresh ticket system by any sequence of
`handleTicketCreate` calls (the channel created or not) and `handleTicketClose` calls:
every stored ticket has status 'open'; the ids of the stored tickets are pairwise
distinct and lie between 1 and `ticketCounter`; at most `ticketCounter` tickets are
stored; and the statistics of `handleStatsCommand` satisfy open + closed = total with
closed ≥ 0, open being the number of stored tickets. -/
theorem tickets_invariant (calls : List Call) :
    (∀ kv ∈ (runCalls calls fresh).tickets, kv.2.status = "open") ∧
    ((runCalls calls fresh).tickets.map fun kv => kv.2.id).Nodup ∧
    (∀ kv ∈ (runCalls calls fresh).tickets,
      1 ≤ kv.2.id ∧ kv.2.id ≤ (runCalls calls fresh).ticketCounter) ∧
    (runCalls calls fresh).tickets.length ≤ (runCalls calls fresh).ticketCounter ∧
    (handleStatsCommand (runCalls calls fresh)).«open»
        + (handleStatsCommand (runCalls calls fresh)).closed
      = (handleStatsCommand (runCalls calls fresh)).total ∧
    0 ≤ (handleStatsCommand (runCalls calls fresh)).closed ∧
    (handleStatsCommand (runCalls calls fresh)).«open»
      = (runCalls calls fresh).tickets.length := by
  obtain ⟨_, hall, hids, hlen⟩ := runCalls_invariant calls fresh invariant_fresh
  have hopen := open_count_le (runCalls calls fresh)
  refine ⟨fun kv hkv => (hall kv hkv).1, hids, fun kv hkv => (hall kv hkv).2, hlen, ?_, ?_, ?_⟩
  · simp only [handleStatsCommand]
    omega
  · simp only [handleStatsCommand]
    omega
  · simp only [handleStatsCommand]
    have hfilter : ((runCalls calls fresh).tickets.map fun kv => kv.2).filter
        (fun t => decide (t.status = "open"))
        = (runCalls calls fresh).tickets.map fun kv => kv.2 := by
      rw [List.filter_eq_self]
      intro t ht
      obtain ⟨kv, hkv, rfl⟩ := List.mem_map.mp ht
      simp [(hall kv hkv).1]
    rw [hfilter, List.length_map]

/-- Witness of `tickets_invariant`: a ticket is created, a channel creation fails, a
second ticket is created, the first is closed; ticket 3 stays, and the statistics read
total 3, open 1, closed 2. -/
theorem tickets_invariant_witness :
    runCalls [Call.create "create_ticket" "u1" (some "ch1"), Call.create "create_ticket" "u2" none,
        Call.create "create_ticket" "u3" (some "ch2"), Call.close "close_ticket" "ch1" true] fresh
      = { tickets := [("ch2", { id := 3, userId := "u3", status := "open", messages := [] })],
          ticketCounter := 3 } ∧
    handleStatsCommand (runCalls
        [Call.create "create_ticket" "u1" (some "ch1"), Call.create "create_ticket" "u2" none,
          Call.create "create_ticket" "u3" (some "ch2"), Call.close "close_ticket" "ch1" true]
        fresh)
      = { total := 3, «open» := 1, closed := 2 } ∧
    (runCalls [Call.create "create_ticket" "u1" (some "ch1"), Call.create "create_ticket" "u2" none,
        Call.create "create_ticket" "u3" (some "ch2"), Call.close "close_ticket" "ch1" true]
        fresh).tickets.length
      ≤ (runCalls
          [Call.create "create_ticket" "u1" (some "ch1"), Call.create "create_ticket" "u2" none,
            Call.create "create_ticket" "u3" (some "ch2"), Call.close "close_ticket" "ch1" true]
          fresh).ticketCounter :=
  ⟨by decide, by decide,
    (tickets_invariant
      [Call.create "create_ticket" "u1" (some "ch1"), Call.create "create_ticket" "u2" none,
        Call.create "create_ticket" "u3" (some "ch2"),
        Call.close "close_ticket" "ch1" true]).2.2.2.1⟩

end TicketSystem
